import Mathlib

/-!
Shallow embedding of the two source files of node-pg-copy-streams
(`copy-to.js`, `copy-both.js`): the COPY-subprotocol frame decoders, the
detach byte accounting, and the writable-side (COPY IN) flusher.

Bytes are modelled as `Nat`, buffers as `List Nat` with the head being the
next byte to read; the obuf accumulator operations (`peekUInt8`,
`readUInt8`, `readUInt32BE`, `take`, `has`, `size`) map to list head,
`take`, `drop` and `length`.  The downstream consumer and the transport
are modelled as always ready (`push` and `stream.write` return `true`),
since none of the verified claims quantifies over backpressure, and the
`drained` bookkeeping that only reflects those return values is dropped.
The `consumed` field is a ghost that records, in order, every byte the
decoder consumed out of the accumulator into frames; it is written exactly
where the source calls `readUInt8`, `readUInt32BE` or `take` on the
accumulator during decoding.
-/

namespace NodePgCopy

abbrev Byte := Nat

/-- Buffer.writeUInt32BE: big-endian 32-bit encoding of `n`. -/
def be32 (n : Nat) : List Byte :=
  [n / 2 ^ 24 % 256, n / 2 ^ 16 % 256, n / 2 ^ 8 % 256, n % 256]

/-- Buffer.readUInt32BE and obuf readUInt32BE: big-endian 32-bit read. -/
def rd32 (b0 b1 b2 b3 : Byte) : Nat := ((b0 * 256 + b1) * 256 + b2) * 256 + b3

namespace code

/-- Modelled from the spec: `./message-formats` is required by both source
files but is not among the sources.  The spec's message table names the
protocol messages and copy-to.js's error text confirms CopyOutResponse is
ASCII 'H'; the values below are the ASCII codes of the PostgreSQL wire
protocol messages of those names. -/
def CopyOutResponse : Byte := 72

def CopyInResponse : Byte := 71

def CopyBothResponse : Byte := 87

def CopyData : Byte := 100

def CopyDone : Byte := 99

def ErrorResponse : Byte := 69

def ParameterStatus : Byte := 83

def NoticeResponse : Byte := 78

def NotificationResponse : Byte := 65

end code

/-- A complete CopyData frame as it appears on the wire: code byte, 4-byte
big-endian length equal to payload length + 4, then the payload.  This is
also exactly the pair of writes `flushChunk` performs in copy-both.js. -/
def copyDataFrame (p : List Byte) : List Byte :=
  code.CopyData :: (be32 (p.length + 4) ++ p)

/-- Wire bytes of a sequence of complete CopyData frames. -/
def framesBytes (ps : List (List Byte)) : List Byte := (ps.map copyDataFrame).flatten

/-- All payloads short enough for their frame length field to be encodable. -/
def framesLenOK (ps : List (List Byte)) : Prop := ∀ p ∈ ps, p.length + 4 < 2 ^ 32


/-! ## copy-to.js -/

namespace CopyTo

/-- The two `this.emit('error', ...)` sites of copy-to.js. -/
inductive Err where
  | unexpectedCopyOut : Err
  | unexpectedMessage : Byte → Err
deriving DecidableEq, Repr

/-- State of the copy-to Transform that persists between `_transform` calls. -/
structure St where
  gotCopyOutResponse : Bool
  rowCount : Nat
  rem : Option (List Byte)
deriving DecidableEq, Repr

def initSt : St := ⟨false, 0, none⟩

/-- Result of running the `while` loop of `_transform` to completion:
`stopped` means the ErrorResponse/CopyDone case returned early. -/
structure LoopOut where
  got : Bool
  rowCount : Nat
  needPush : Bool
  outbuf : List Byte
  errs : List Err
  offset : Nat
  stopped : Bool
deriving DecidableEq, Repr

/-- The `while (chunk.length - offset >= Byte1Len + Int32Len)` loop of
`_transform`.  Note that, as in the source, the per-code `switch` runs
before the full message is known to be present, so its side effects
re-run when a partial frame is re-presented on the next call. -/
def loop (chunk : List Byte) (offset : Nat) (got : Bool) (rc : Nat) (needPush : Bool)
    (outbuf : List Byte) (errs : List Err) : LoopOut :=
  if _h5 : offset + 5 ≤ chunk.length then
    let mc := chunk.getD offset 0
    if mc = code.ErrorResponse ∨ mc = code.CopyDone then
      ⟨got, rc, needPush, outbuf, errs, offset, true⟩
    else
      let got1 := if mc = code.CopyOutResponse then true else got
      let errs1 := errs ++
        (if mc = code.CopyOutResponse then (if got then [Err.unexpectedCopyOut] else [])
         else if mc = code.CopyData ∨ mc = code.ParameterStatus ∨ mc = code.NoticeResponse ∨
            mc = code.NotificationResponse then []
         else [Err.unexpectedMessage mc])
      let needPush1 := if mc = code.CopyData then true else needPush
      let len := rd32 (chunk.getD (offset + 1) 0) (chunk.getD (offset + 2) 0)
        (chunk.getD (offset + 3) 0) (chunk.getD (offset + 4) 0)
      if offset + 1 + len ≤ chunk.length then
        let row := (chunk.drop (offset + 5)).take (len - 4)
        loop chunk (offset + 1 + len) got1 (if needPush1 then rc + 1 else rc) needPush1
          (if needPush1 then outbuf ++ row else outbuf) errs1
      else
        ⟨got1, rc, needPush1, outbuf, errs1, offset, false⟩
  else ⟨got, rc, needPush, outbuf, errs, offset, false⟩
termination_by chunk.length - offset
decreasing_by omega

/-- Result of one `_transform` call. -/
structure Res where
  st : St
  out : List (List Byte)
  errs : List Err
  eos : Bool
  detached : Bool
deriving DecidableEq, Repr

/-- One `_transform` call: prepend the remainder, run the loop, push the
collected row bytes if needed, and either stop (ErrorResponse/CopyDone:
detach and end the stream) or store the unconsumed tail as remainder. -/
def transform (st : St) (data : List Byte) : Res :=
  let chunk := st.rem.getD [] ++ data
  let r := loop chunk 0 st.gotCopyOutResponse st.rowCount false [] []
  let pushed := if r.needPush ∧ r.outbuf ≠ [] then [r.outbuf] else []
  if r.stopped then
    { st := ⟨r.got, r.rowCount, st.rem⟩, out := pushed, errs := r.errs,
      eos := true, detached := true }
  else
    { st := ⟨r.got, r.rowCount,
        if r.offset < chunk.length then some (chunk.drop r.offset) else none⟩,
      out := pushed, errs := r.errs, eos := false, detached := false }

end CopyTo

/-! ## copy-both.js -/

namespace CopyBoth

/-- The readable-decoder state constants of copy-both.js are
PG_CODE = 0, PG_LENGTH = 1, PG_MESSAGE = 2 (kept as raw numerals in the
`pstate` field below). -/
structure St where
  pstate : Nat
  buffer : List Byte
  mcode : Byte
  unread : Int
  copyData : List Byte
  rowMode : Bool
  got : Bool
  queue : List (List Byte)
  sent : List Byte
  consumed : List Byte
deriving DecidableEq, Repr

/-- Constructor state: PG_CODE, empty accumulator, no pending data. -/
def init (rm : Bool) : St :=
  { pstate := 0, buffer := [], mcode := 0, unread := 0, copyData := [], rowMode := rm,
    got := false, queue := [], sent := [], consumed := [] }

/-- flushChunk: frame one pending chunk as CopyData and write both buffers
to the transport. -/
def flushChunk (st : St) (c : List Byte) : St :=
  { st with sent := st.sent ++ copyDataFrame c }

/-- flush: drain the pending chunk queue to the transport in FIFO order
(the transport is modelled as always writable). -/
def flush (st : St) : St := st.queue.foldl flushChunk { st with queue := [] }

/-- _startCopyIn, invoked when the decoder completes a CopyBothResponse
frame: record the acknowledgment and flush everything queued. -/
def startCopyIn (st : St) : St := flush { st with got := true }

/-- _write: queue the chunk; transmit at once only when the copy-start
acknowledgment has already been observed. -/
def write (st : St) (c : List Byte) : St :=
  let st1 : St := { st with queue := st.queue ++ [c] }
  if st1.got then flush st1 else st1

/-- _final: flush what is queued, then write a zero-payload CopyDone frame. -/
def final (st : St) : St :=
  let st1 := flush st
  { st1 with sent := st1.sent ++ [code.CopyDone, 0, 0, 0, 4] }

/-- _flushCopyData: push the accumulated CopyData payload, if any, as one
unit. -/
def flushCopyData (st : St) (out : List (List Byte)) : St × List (List Byte) :=
  if st.copyData = [] then (st, out) else ({ st with copyData := [] }, out ++ [st.copyData])

/-- Outcome of one pass of the `_parse` loop body: keep looping, break
(too few bytes for the current field), done (CopyDone or unrecognized
code), or the early ErrorResponse return. -/
inductive IterRes where
  | next : St → List (List Byte) → IterRes
  | brk : St → List (List Byte) → IterRes
  | stop : St → List (List Byte) → IterRes
  | err : St → List (List Byte) → IterRes
deriving DecidableEq, Repr

/-- The first `if` of the PG_MESSAGE block: move
`min(buffer.size, unread)` bytes out of the accumulator, collecting them
when the current message is CopyData. -/
def consumeStep (st : St) : St :=
  if 0 < st.unread ∧ st.buffer ≠ [] then
    let n := min st.buffer.length st.unread.toNat
    { st with buffer := st.buffer.drop n, unread := st.unread - n,
              consumed := st.consumed ++ st.buffer.take n,
              copyData := if st.mcode = code.CopyData then st.copyData ++ st.buffer.take n
                          else st.copyData }
  else st

/-- The second `if` of the PG_MESSAGE block: when the full message has
been captured, the per-code `switch`, then the reset to PG_CODE. -/
def dispatch (st1 : St) (out : List (List Byte)) : IterRes :=
  if st1.unread = 0 then
    if st1.mcode = code.CopyBothResponse then .next (startCopyIn { st1 with pstate := 0 }) out
    else if st1.mcode = code.CopyData then
      if st1.rowMode then
        let r := flushCopyData { st1 with pstate := 0 } out
        .next r.1 r.2
      else .next { st1 with pstate := 0 } out
    else if st1.mcode = code.ParameterStatus ∨ st1.mcode = code.NoticeResponse ∨
        st1.mcode = code.NotificationResponse then .next { st1 with pstate := 0 } out
    else .stop { st1 with pstate := 0 } out
  else .next st1 out

/-- The PG_MESSAGE block of the `_parse` loop: the consuming `if`
followed by the completed-message dispatch. -/
def stage3 (st : St) (out : List (List Byte)) : IterRes :=
  if st.pstate = 2 then dispatch (consumeStep st) out
  else .next st out

/-- The PG_LENGTH block of the `_parse` loop; falls through to the
PG_MESSAGE block as in the source. -/
def stage2 (st : St) (out : List (List Byte)) : IterRes :=
  if st.pstate = 1 then
    match st.buffer with
    | b0 :: b1 :: b2 :: b3 :: rest =>
      stage3 { st with buffer := rest, unread := (rd32 b0 b1 b2 b3 : Int) - 4, pstate := 2,
                       consumed := st.consumed ++ [b0, b1, b2, b3] } out
    | _ => .brk st out
  else stage3 st out

/-- One pass of the `while (!done && this._buffer.size > 0)` body of
`_parse` (the PG_CODE block, falling through to the other two). -/
def parseIter (st : St) (out : List (List Byte)) : IterRes :=
  if st.pstate = 0 then
    match st.buffer with
    | [] => .brk st out
    | b :: rest =>
      if b = code.ErrorResponse then .err { st with mcode := b } out
      else stage2 { st with mcode := b, buffer := rest, pstate := 1,
                            consumed := st.consumed ++ [b] } out
  else stage2 st out

/-- How the `_parse` loop ended. -/
inductive LoopRes where
  | normal : St → List (List Byte) → LoopRes
  | finished : St → List (List Byte) → LoopRes
  | errStop : St → List (List Byte) → LoopRes
deriving DecidableEq, Repr

/-- The `_parse` loop, fuelled: `none` models non-termination. -/
def parseLoop (fuel : Nat) (st : St) (out : List (List Byte)) : Option LoopRes :=
  if st.buffer = [] then some (.normal st out)
  else
    match fuel with
    | 0 => none
    | f + 1 =>
      match parseIter st out with
      | .next st1 out1 => parseLoop f st1 out1
      | .brk st1 out1 => some (.normal st1 out1)
      | .stop st1 out1 => some (.finished st1 out1)
      | .err st1 out1 => some (.errStop st1 out1)

/-- The state carried by a loop-pass outcome (for stating invariants). -/
def iterSt : IterRes → St
  | .next st _ => st
  | .brk st _ => st
  | .stop st _ => st
  | .err st _ => st

/-- The state carried by a loop outcome (for stating invariants). -/
def loopSt : LoopRes → St
  | .normal st _ => st
  | .finished st _ => st
  | .errStop st _ => st

/-- _detach: hand back every byte still held in the accumulator
(`this._buffer.take(this._buffer.size)`). -/
def detach (st : St) : St × List Byte := ({ st with buffer := [] }, st.buffer)

/-- Result of one `_parse` call: outputs pushed, whether `push(null)` was
issued, and the bytes replayed to the original consumer if `_detach` ran. -/
structure Res where
  st : St
  out : List (List Byte)
  eos : Bool
  replay : Option (List Byte)
deriving DecidableEq, Repr

/-- One `_parse` call.  When every declared frame length is at least 4
every loop pass consumes at least one byte, so `buffer.length + 1` passes
always suffice; `none` therefore models the endless loop a declared length
below 4 causes in the source. -/
def parse (st0 : St) (chunk : List Byte) : Option Res :=
  let stp : St := { st0 with buffer := st0.buffer ++ chunk }
  match parseLoop (stp.buffer.length + 1) stp [] with
  | none => none
  | some (.errStop st1 out) =>
    let d := detach st1
    some ⟨d.1, out, false, some d.2⟩
  | some (.normal st1 out) =>
    if st1.rowMode then some ⟨st1, out, false, none⟩
    else
      let r := flushCopyData st1 out
      some ⟨r.1, r.2, false, none⟩
  | some (.finished st1 out) =>
    let r := if st1.rowMode then (st1, out) else flushCopyData st1 out
    let d := detach r.1
    some ⟨d.1, r.2, true, some d.2⟩

/-- The code of `_parse` that runs after its loop has ended, as a function
of the loop outcome: the raw-mode flush, and on the done/error paths the
detach (with `push(null)` on the done path only). -/
def finish (lr : LoopRes) : Res :=
  match lr with
  | .errStop st1 out => ⟨(detach st1).1, out, false, some (detach st1).2⟩
  | .normal st1 out =>
    if st1.rowMode then ⟨st1, out, false, none⟩
    else ⟨(flushCopyData st1 out).1, (flushCopyData st1 out).2, false, none⟩
  | .finished st1 out =>
    if st1.rowMode then ⟨(detach st1).1, out, true, some (detach st1).2⟩
    else ⟨(detach (flushCopyData st1 out).1).1, (flushCopyData st1 out).2, true,
      some (detach (flushCopyData st1 out).1).2⟩

/-- Sequential delivery of transport chunks to `_parse` (the `_forward`
loop); delivery stops once the decoder has detached.  Returns the final
state, all pushed outputs, the end-of-stream flag, the replayed bytes when
a detach happened, and the bytes actually delivered. -/
def feed (st : St) :
    List (List Byte) → Option (St × List (List Byte) × Bool × Option (List Byte) × List Byte)
  | [] => some (st, [], false, none, [])
  | c :: cs =>
    match parse st c with
    | none => none
    | some r =>
      match r.replay with
      | some rep => some (r.st, r.out, r.eos, some rep, c)
      | none =>
        match feed r.st cs with
        | none => none
        | some (st1, outs, eos, rep, fed) => some (st1, r.out ++ outs, eos, rep, c ++ fed)

/-- Events on the writable side: a caller write, or the decoder observing
the server's copy-start acknowledgment (which invokes `_startCopyIn`). -/
inductive WEv where
  | write : List Byte → WEv
  | ack : WEv
deriving DecidableEq, Repr

/-- Run a sequence of writable-side events. -/
def runW (st : St) : List WEv → St
  | [] => st
  | WEv.write c :: evs => runW (write st c) evs
  | WEv.ack :: evs => runW (startCopyIn st) evs

/-- The chunks written by the caller in an event sequence, in order. -/
def writesOf (evs : List WEv) : List (List Byte) :=
  evs.filterMap fun e => match e with | WEv.write c => some c | WEv.ack => none

/-- Structural scan of the accumulator checking that every frame length
field the decode loop can reach declares at least 4 (the inclusive length
of the length field itself); `s`/`u` are the decoder state and remaining
content length the scan starts from. -/
def lensOK (s : Nat) (u : Int) (B : List Byte) : Bool :=
  if s = 2 then
    if u ≤ 0 then true
    else if B.length ≤ u.toNat then true
    else lensOK 0 0 (B.drop u.toNat)
  else if s = 1 then
    match B with
    | b0 :: b1 :: b2 :: b3 :: rest =>
      if rd32 b0 b1 b2 b3 < 4 then false
      else if rest.length ≤ rd32 b0 b1 b2 b3 - 4 then true
      else lensOK 0 0 (rest.drop (rd32 b0 b1 b2 b3 - 4))
    | _ => true
  else
    match B with
    | [] => true
    | b :: rest => if b = code.ErrorResponse then true else lensOK 1 0 rest
termination_by B.length
decreasing_by
  all_goals simp_all [List.length_drop]
  all_goals omega

/-- State after the `_parse` loop has consumed the complete CopyData
frames `qs` from the front of the accumulator (used to state the loop
reduction lemma; for `qs = []` nothing has happened). -/
def afterFrames (st : St) (qs : List (List Byte)) (tail : List Byte) : St :=
  match qs with
  | [] => { st with buffer := tail }
  | _ :: _ =>
    { st with
      buffer := tail, mcode := code.CopyData, pstate := 0, unread := 0,
      copyData := st.copyData ++ qs.flatten, consumed := st.consumed ++ framesBytes qs }

/-- Row-mode analogue of `afterFrames`: each completed CopyData frame's
payload was pushed (when nonempty) and the payload accumulator reset. -/
def afterFramesRow (st : St) (qs : List (List Byte)) (tail : List Byte) : St :=
  match qs with
  | [] => { st with buffer := tail }
  | _ :: _ =>
    { st with
      buffer := tail, mcode := code.CopyData, pstate := 0, unread := 0,
      copyData := [], consumed := st.consumed ++ framesBytes qs }

/-- State in which the `_parse` loop suspends after receiving only the
first `m` bytes (`1 ≤ m < 5 + p.length`) of a CopyData frame carrying
payload `p`, starting from a frame boundary. -/
def exitSt (st : St) (p : List Byte) (m : Nat) : St :=
  if m ≤ 4 then
    { st with
      pstate := 1, buffer := (be32 (p.length + 4)).take (m - 1), mcode := code.CopyData,
      consumed := st.consumed ++ [code.CopyData] }
  else
    { st with
      pstate := 2, buffer := [], mcode := code.CopyData,
      unread := ((5 + p.length - m : Nat) : Int),
      copyData := st.copyData ++ p.take (m - 5),
      consumed := st.consumed ++ (copyDataFrame p).take m }

/-- Mid-stream decoder invariant for a raw-mode CopyData-only stream:
`rem` is the part of the stream not yet delivered and `rp` the payload
bytes not yet pushed downstream.  Either the decoder sits at a frame
boundary with the whole remainder made of complete frames, or it is `j`
bytes into the frame carrying payload `p` (with the length-field bytes it
has buffered, or in PG_MESSAGE with the rest of the payload pending). -/
def Rep (st : St) (rem rp : List Byte) : Prop :=
  st.rowMode = false ∧ st.copyData = [] ∧
  ((st.pstate = 0 ∧ st.buffer = [] ∧ st.unread = 0 ∧
      ∃ ps, framesLenOK ps ∧ rem = framesBytes ps ∧ rp = ps.flatten) ∨
   (∃ p j ps, 1 ≤ j ∧ j < 5 + p.length ∧ framesLenOK (p :: ps) ∧
      rem = (copyDataFrame p).drop j ++ framesBytes ps ∧
      rp = p.drop (j - 5) ++ ps.flatten ∧
      ((j ≤ 4 ∧ st.pstate = 1 ∧ st.buffer = (be32 (p.length + 4)).take (j - 1) ∧
          st.mcode = code.CopyData ∧ st.unread = 0) ∨
       (5 ≤ j ∧ st.pstate = 2 ∧ st.buffer = [] ∧ st.mcode = code.CopyData ∧
          st.unread = ((5 + p.length - j : Nat) : Int)))))

/-- Reachability invariant for the decode loop used in the termination
proof: the decoder state constant is one of the three PG_* values, the
remaining content length is never negative, it is positive whenever the
loop suspends inside a message, and every frame length field still
reachable in the accumulator declares at least 4. -/
def Inv (st : St) : Prop :=
  (st.pstate = 0 ∨ st.pstate = 1 ∨ st.pstate = 2) ∧ (st.pstate = 2 → 0 < st.unread) ∧
  0 ≤ st.unread ∧ lensOK st.pstate st.unread st.buffer = true

end CopyBoth

/-! ## Basic facts -/

/-- The length field written by `Buffer.writeUInt32BE` reads back to the
same value whenever it fits in 32 bits. -/
theorem rd32_be32 (n : Nat) (h : n < 2 ^ 32) :
    rd32 (n / 2 ^ 24 % 256) (n / 2 ^ 16 % 256) (n / 2 ^ 8 % 256) (n % 256) = n := by
  simp only [rd32]
  omega

theorem be32_eq (n : Nat) :
    be32 n = n / 2 ^ 24 % 256 :: n / 2 ^ 16 % 256 :: n / 2 ^ 8 % 256 :: n % 256 :: [] := rfl

/-- Prefix decomposition of a frame stream: a prefix of `framesBytes ps`
ends either at a frame boundary or `m` bytes into one frame. -/
theorem framesBytes_split (ps : List (List Byte)) : ∀ (c rem' : List Byte),
    c ++ rem' = framesBytes ps →
    (∃ qs qs', ps = qs ++ qs' ∧ c = framesBytes qs ∧ rem' = framesBytes qs')
    ∨ (∃ qs r m qs', ps = qs ++ r :: qs' ∧ 1 ≤ m ∧ m < 5 + r.length ∧
        c = framesBytes qs ++ (copyDataFrame r).take m ∧
        rem' = (copyDataFrame r).drop m ++ framesBytes qs') := by
  induction ps with
  | nil =>
    intro c rem' h
    rw [show framesBytes [] = [] from rfl] at h
    rcases List.append_eq_nil.mp h with ⟨hc, hr⟩
    exact Or.inl ⟨[], [], rfl, by simp [hc, framesBytes], by simp [hr, framesBytes]⟩
  | cons p ps ih =>
    intro c rem' h
    have hfl : framesBytes (p :: ps) = copyDataFrame p ++ framesBytes ps := by
      simp [framesBytes]
    rw [hfl] at h
    have hlenF : (copyDataFrame p).length = 5 + p.length := by
      simp [copyDataFrame, be32]
      omega
    rcases List.append_eq_append_iff.mp h with ⟨a, hF, hrem⟩ | ⟨c2, hc, hfb⟩
    · by_cases ha : a = []
      · subst ha
        refine Or.inl ⟨[p], ps, rfl, ?_, ?_⟩
        · rw [List.append_nil] at hF
          rw [← hF]
          simp [framesBytes]
        · rw [hrem, List.nil_append]
      · by_cases hc0 : c = []
        · refine Or.inl ⟨[], p :: ps, rfl, by simp [hc0, framesBytes], ?_⟩
          rw [hfl, hrem, hF, hc0, List.nil_append]
        · refine Or.inr ⟨[], p, c.length, ps, rfl, ?_, ?_, ?_, ?_⟩
          · have := List.length_pos.mpr hc0
            omega
          · have hal : 0 < a.length := List.length_pos.mpr ha
            have := congrArg List.length hF
            simp at this
            omega
          · rw [hF, List.take_left]
            simp [framesBytes]
          · rw [hrem, hF, List.drop_left]
    · rcases ih c2 rem' hfb.symm with ⟨qs, qs', hps, hc', hrem⟩ |
        ⟨qs, r, m, qs', hps, hm1, hm2, hc', hrem⟩
      · refine Or.inl ⟨p :: qs, qs', by rw [hps]; rfl, ?_, hrem⟩
        rw [hc, hc']
        simp [framesBytes]
      · refine Or.inr ⟨p :: qs, r, m, qs', by rw [hps]; rfl, hm1, hm2, ?_, hrem⟩
        rw [hc, hc']
        simp [framesBytes, List.append_assoc]

namespace CopyBoth

/-! Small-step equations for the `_parse` loop, used both for symbolic
reasoning and to evaluate concrete runs one pass at a time. -/

theorem parseLoop_nil (f : Nat) (st : St) (out : List (List Byte)) (h : st.buffer = []) :
    parseLoop f st out = some (.normal st out) := by
  cases f with
  | zero => simp [parseLoop, h]
  | succ f => simp [parseLoop, h]

theorem parseLoop_step (f : Nat) (st : St) (out : List (List Byte)) (st1 : St)
    (out1 : List (List Byte)) (hne : st.buffer ≠ [])
    (hit : parseIter st out = .next st1 out1) :
    parseLoop (f + 1) st out = parseLoop f st1 out1 := by
  simp [parseLoop, hne, hit]

theorem parseLoop_brk (f : Nat) (st : St) (out : List (List Byte)) (st1 : St)
    (out1 : List (List Byte)) (hne : st.buffer ≠ [])
    (hit : parseIter st out = .brk st1 out1) :
    parseLoop (f + 1) st out = some (.normal st1 out1) := by
  simp [parseLoop, hne, hit]

theorem parseLoop_stop1 (f : Nat) (st : St) (out : List (List Byte)) (st1 : St)
    (out1 : List (List Byte)) (hne : st.buffer ≠ [])
    (hit : parseIter st out = .stop st1 out1) :
    parseLoop (f + 1) st out = some (.finished st1 out1) := by
  simp [parseLoop, hne, hit]

theorem parseLoop_err1 (f : Nat) (st : St) (out : List (List Byte)) (st1 : St)
    (out1 : List (List Byte)) (hne : st.buffer ≠ [])
    (hit : parseIter st out = .err st1 out1) :
    parseLoop (f + 1) st out = some (.errStop st1 out1) := by
  simp [parseLoop, hne, hit]

/-- One `_parse` call is the loop run (with the fuel the call supplies)
followed by `finish`. -/
theorem parse_eq_map (st0 : St) (chunk : List Byte) :
    parse st0 chunk
      = (parseLoop (st0.buffer.length + chunk.length + 1)
          { st0 with buffer := st0.buffer ++ chunk } []).map finish := by
  cases h : parseLoop (st0.buffer.length + chunk.length + 1)
      { st0 with buffer := st0.buffer ++ chunk } [] with
  | none => simp [parse, List.length_append, h]
  | some lr =>
    cases lr with
    | normal st1 out =>
      by_cases hr : st1.rowMode <;> simp [parse, List.length_append, h, finish, hr]
    | finished st1 out =>
      by_cases hr : st1.rowMode <;> simp [parse, List.length_append, h, finish, hr]
    | errStop st1 out => simp [parse, List.length_append, h, finish]

/-! Writable-side facts. -/

theorem foldl_flushChunk (q : List (List Byte)) : ∀ st : St, q.foldl flushChunk st
    = { st with sent := st.sent ++ (q.map copyDataFrame).flatten } := by
  induction q with
  | nil => intro st; simp
  | cons c q ih => intro st; simp [flushChunk, ih, List.append_assoc]

theorem flush_eq (st : St) : flush st
    = { st with queue := [], sent := st.sent ++ (st.queue.map copyDataFrame).flatten } := by
  simp [flush, foldl_flushChunk]

theorem startCopyIn_eq (st : St) : startCopyIn st
    = { st with
        got := true, queue := [],
        sent := st.sent ++ (st.queue.map copyDataFrame).flatten } := by
  simp [startCopyIn, flush_eq]

theorem write_pending (st : St) (c : List Byte) (h : st.got = false) :
    write st c = { st with queue := st.queue ++ [c] } := by
  simp [write, h]

theorem write_live (st : St) (c : List Byte) (h : st.got = true) :
    write st c
      = { st with
          queue := [],
          sent := st.sent ++ ((st.queue ++ [c]).map copyDataFrame).flatten } := by
  simp [write, h, flush_eq]

theorem runW_append (st : St) (a b : List WEv) : runW st (a ++ b) = runW (runW st a) b := by
  induction a generalizing st with
  | nil => rfl
  | cons e a ih => cases e <;> simp [runW, ih]

theorem runW_pending (evs : List WEv) (st : St) (h : st.got = false)
    (hnoack : WEv.ack ∉ evs) :
    runW st evs = { st with queue := st.queue ++ writesOf evs } := by
  induction evs generalizing st with
  | nil => simp [runW, writesOf]
  | cons e evs ih =>
    cases e with
    | write c =>
      have hnoack1 : WEv.ack ∉ evs := fun hc => hnoack (List.mem_cons_of_mem _ hc)
      simp only [runW]
      rw [write_pending st c h]
      rw [ih { st with queue := st.queue ++ [c] } h hnoack1]
      simp [writesOf, List.append_assoc]
    | ack => exact absurd (List.mem_cons_self _ _) hnoack

theorem runW_live (evs : List WEv) (st : St) (hg : st.got = true) (hq : st.queue = []) :
    runW st evs
      = { st with
          sent := st.sent ++ ((writesOf evs).map copyDataFrame).flatten,
          queue := [] } := by
  induction evs generalizing st with
  | nil =>
    obtain ⟨p, b, m, u, cd, rw0, g, q, s, co⟩ := st
    simp only at hq
    subst hq
    simp [runW, writesOf]
  | cons e evs ih =>
    cases e with
    | write c =>
      simp only [runW]
      rw [write_live st c hg]
      rw [ih { st with
            queue := [],
            sent := st.sent ++ ((st.queue ++ [c]).map copyDataFrame).flatten } hg rfl]
      simp [writesOf, hq, List.append_assoc]
    | ack =>
      simp only [runW]
      rw [startCopyIn_eq st]
      rw [ih { st with
            got := true, queue := [],
            sent := st.sent ++ (st.queue.map copyDataFrame).flatten } rfl rfl]
      simp [writesOf, hq, hg]

theorem writesOf_writes (ws : List (List Byte)) : writesOf (ws.map WEv.write) = ws := by
  induction ws with
  | nil => rfl
  | cons c ws ih => simp [writesOf] at ih ⊢; exact ih

theorem ack_not_mem_writes (ws : List (List Byte)) : WEv.ack ∉ ws.map WEv.write := by
  simp

/-- The payload of a framed chunk is recovered by dropping the 5 header
bytes. -/
theorem copyDataFrame_drop (c : List Byte) : (copyDataFrame c).drop 5 = c := rfl

theorem copyDataFrame_take (c : List Byte) :
    (copyDataFrame c).take 5 = code.CopyData :: be32 (c.length + 4) := rfl

/-! Byte conservation: every byte the decoder removes from the accumulator
is appended to the `consumed` ghost, so `consumed ++ buffer` is invariant
under the loop and grows exactly by the delivered chunk on each call. -/

theorem flushCopyData_fst (st : St) (out : List (List Byte)) :
    (flushCopyData st out).1
      = if st.copyData = [] then st else { st with copyData := [] } := by
  by_cases h : st.copyData = [] <;> simp [flushCopyData, h]

theorem dispatch_conserve (s : St) (out : List (List Byte)) :
    (iterSt (dispatch s out)).consumed ++ (iterSt (dispatch s out)).buffer
      = s.consumed ++ s.buffer := by
  simp only [dispatch, startCopyIn_eq, flushCopyData]
  split_ifs <;> simp [iterSt]

theorem consumeStep_conserve (st : St) :
    (consumeStep st).consumed ++ (consumeStep st).buffer = st.consumed ++ st.buffer := by
  by_cases hc : 0 < st.unread ∧ st.buffer ≠ []
  · simp [consumeStep, hc, List.append_assoc, List.take_append_drop]
  · simp [consumeStep, hc]

theorem stage3_conserve (st : St) (out : List (List Byte)) :
    (iterSt (stage3 st out)).consumed ++ (iterSt (stage3 st out)).buffer
      = st.consumed ++ st.buffer := by
  by_cases h2 : st.pstate = 2
  · simp only [stage3, h2, if_true]
    rw [dispatch_conserve]
    exact consumeStep_conserve st
  · simp [stage3, h2, iterSt]

theorem stage2_conserve (st : St) (out : List (List Byte)) :
    (iterSt (stage2 st out)).consumed ++ (iterSt (stage2 st out)).buffer
      = st.consumed ++ st.buffer := by
  by_cases h1 : st.pstate = 1
  · rcases hb : st.buffer with _ | ⟨b0, _ | ⟨b1, _ | ⟨b2, _ | ⟨b3, rest⟩⟩⟩⟩
    · simp [stage2, h1, hb, iterSt]
    · simp [stage2, h1, hb, iterSt]
    · simp [stage2, h1, hb, iterSt]
    · simp [stage2, h1, hb, iterSt]
    · simp only [stage2, h1, if_true, hb]
      rw [stage3_conserve]
      simp
  · simp only [stage2, h1, if_false]
    exact stage3_conserve st out

theorem parseIter_conserve (st : St) (out : List (List Byte)) :
    (iterSt (parseIter st out)).consumed ++ (iterSt (parseIter st out)).buffer
      = st.consumed ++ st.buffer := by
  by_cases h0 : st.pstate = 0
  · rcases hb : st.buffer with _ | ⟨b, rest⟩
    · simp [parseIter, h0, hb, iterSt]
    · by_cases he : b = code.ErrorResponse
      · simp [parseIter, h0, hb, he, iterSt]
      · simp only [parseIter, h0, if_true, hb, he, if_false]
        rw [stage2_conserve]
        simp [hb, List.append_assoc]
  · simp only [parseIter, h0, if_false]
    exact stage2_conserve st out

theorem parseLoop_conserve (f : Nat) : ∀ (st : St) (out : List (List Byte)) (lr : LoopRes),
    parseLoop f st out = some lr →
    (loopSt lr).consumed ++ (loopSt lr).buffer = st.consumed ++ st.buffer := by
  induction f with
  | zero =>
    intro st out lr h
    by_cases hb : st.buffer = [] <;> simp [parseLoop, hb] at h
    subst h
    simp [loopSt]
  | succ f ih =>
    intro st out lr h
    by_cases hb : st.buffer = []
    · simp [parseLoop, hb] at h
      subst h
      simp [loopSt]
    · have h1 := parseIter_conserve st out
      simp only [parseLoop, hb, if_false] at h
      rcases hi : parseIter st out with ⟨st1, out1⟩ | ⟨st1, out1⟩ | ⟨st1, out1⟩ | ⟨st1, out1⟩ <;>
        rw [hi] at h h1 <;> simp only [iterSt] at h1
      · rw [ih st1 out1 lr h, h1]
      · simp only [Option.some.injEq] at h
        subst h
        simpa [loopSt] using h1
      · simp only [Option.some.injEq] at h
        subst h
        simpa [loopSt] using h1
      · simp only [Option.some.injEq] at h
        subst h
        simpa [loopSt] using h1

theorem parse_conserve (st0 : St) (chunk : List Byte) (r : Res) (h : parse st0 chunk = some r) :
    r.st.consumed ++ r.st.buffer ++ r.replay.getD [] = st0.consumed ++ st0.buffer ++ chunk
    ∧ (r.replay.isSome → r.st.buffer = []) := by
  rw [parse_eq_map] at h
  rw [Option.map_eq_some'] at h
  obtain ⟨lr, hlr, hfin⟩ := h
  have hcons := parseLoop_conserve _ _ _ _ hlr
  simp only [List.append_assoc] at hcons ⊢
  subst hfin
  cases lr with
  | normal st1 out =>
    simp only [loopSt] at hcons
    by_cases hr : st1.rowMode <;>
      simp [finish, hr, flushCopyData_fst, hcons, detach] <;>
      split_ifs <;> simp_all
  | finished st1 out =>
    simp only [loopSt] at hcons
    by_cases hr : st1.rowMode <;>
      simp [finish, hr, flushCopyData_fst, hcons, detach] <;>
      split_ifs <;> simp_all
  | errStop st1 out =>
    simp only [loopSt] at hcons
    simp [finish, detach, hcons]

theorem feed_conserve : ∀ (cs : List (List Byte)) (st st1 : St) (outs : List (List Byte))
    (eos : Bool) (rep fed : List Byte),
    feed st cs = some (st1, outs, eos, some rep, fed) →
    st1.consumed ++ rep = st.consumed ++ st.buffer ++ fed := by
  intro cs
  induction cs with
  | nil => intro st st1 outs eos rep fed h; simp [feed] at h
  | cons c cs ih =>
    intro st st1 outs eos rep fed h
    simp only [feed] at h
    rcases hp : parse st c with _ | r
    · rw [hp] at h; simp at h
    · rw [hp] at h
      have hc := parse_conserve st c r hp
      obtain ⟨rst, rout, reos, rrep⟩ := r
      rcases rrep with _ | rep0
      · dsimp only at h
        rcases hf : feed rst cs with _ | ⟨st2, outs2, eos2, rep2, fed2⟩
        · rw [hf] at h; simp at h
        · rw [hf] at h
          simp only [Option.some.injEq, Prod.mk.injEq] at h
          obtain ⟨h1, -, h3, h4, h5⟩ := h
          rcases rep2 with _ | rep2
          · simp at h4
          · have h4x : rep2 = rep := by simpa using h4
            have hrec := ih rst st2 outs2 eos2 rep2 fed2 (by rw [hf])
            have hcc := hc.1
            simp only [Option.getD, List.append_nil] at hcc
            rw [← h1, ← h4x, ← h5, hrec, hcc, List.append_assoc]
      · dsimp only at h
        simp only [Option.some.injEq, Prod.mk.injEq] at h
        obtain ⟨h1, -, h3, h4, h5⟩ := h
        have h4x : rep0 = rep := by simpa using h4
        have hb : rst.buffer = [] := hc.2 (by simp)
        have hcc := hc.1
        simp only [hb, Option.getD] at hcc
        rw [← h1, ← h4x, ← h5]
        simpa using hcc

/-! Frame-granular reduction of the `_parse` loop: one loop pass consumes a
whole buffered CopyData frame, so a run over complete frames is a fold,
and an `ErrorResponse` code byte at a frame boundary is intercepted with
nothing of it consumed. -/

theorem consumeStep_skip (s : St) (h : ¬(0 < s.unread ∧ s.buffer ≠ [])) : consumeStep s = s :=
  if_neg h

theorem consumeStep_exact (s : St) (t r2 : List Byte) (hu : s.unread = (t.length : Int))
    (ht : t ≠ []) (hbuf : s.buffer = t ++ r2) (hm : s.mcode = code.CopyData) :
    consumeStep s
      = { s with
          buffer := r2, unread := 0, copyData := s.copyData ++ t,
          consumed := s.consumed ++ t } := by
  have htl : 0 < t.length := List.length_pos.mpr ht
  have hc : 0 < s.unread ∧ s.buffer ≠ [] := by
    refine ⟨by rw [hu]; exact_mod_cast htl, by rw [hbuf]; simp [ht]⟩
  rw [consumeStep, if_pos hc]
  have hmin : min s.buffer.length s.unread.toNat = t.length := by
    rw [hbuf, hu]
    simp
  rw [hmin, hbuf, hu, hm]
  simp [List.take_left, List.drop_left]

theorem consumeStep_short (s : St) (t : List Byte) (u : Nat) (hu : s.unread = (u : Int))
    (hlt : t.length < u) (ht : t ≠ []) (hbuf : s.buffer = t) (hm : s.mcode = code.CopyData) :
    consumeStep s
      = { s with
          buffer := [], unread := ((u - t.length : Nat) : Int),
          copyData := s.copyData ++ t, consumed := s.consumed ++ t } := by
  have hc : 0 < s.unread ∧ s.buffer ≠ [] := by
    have htl : 0 < t.length := List.length_pos.mpr ht
    refine ⟨by rw [hu]; omega, by rw [hbuf]; exact ht⟩
  rw [consumeStep, if_pos hc]
  have hmin : min s.buffer.length s.unread.toNat = t.length := by
    rw [hbuf, hu]
    simp
    omega
  rw [hmin, hbuf, hu, hm]
  have : ((u : Int) - (t.length : Nat)) = ((u - t.length : Nat) : Int) := by omega
  simp [this]

theorem dispatch_pending (s : St) (out : List (List Byte)) (hu : s.unread ≠ 0) :
    dispatch s out = .next s out := by
  rw [dispatch, if_neg hu]

theorem dispatch_copyData_raw (s : St) (out : List (List Byte)) (hu : s.unread = 0)
    (hm : s.mcode = code.CopyData) (hrow : s.rowMode = false) :
    dispatch s out = .next { s with pstate := 0 } out := by
  rw [dispatch, if_pos hu, if_neg (by rw [hm]; decide), if_pos hm]
  simp [hrow]

theorem dispatch_copyData_row (s : St) (out : List (List Byte)) (hu : s.unread = 0)
    (hm : s.mcode = code.CopyData) (hrow : s.rowMode = true) :
    dispatch s out
      = if s.copyData = [] then .next { s with pstate := 0 } out
        else .next { s with pstate := 0, copyData := [] } (out ++ [s.copyData]) := by
  rw [dispatch, if_pos hu, if_neg (by rw [hm]; decide), if_pos hm]
  by_cases hcd : s.copyData = [] <;> simp [hrow, flushCopyData, hcd]

theorem parseIter_frame_core (st : St) (p rest : List Byte) (out : List (List Byte))
    (hlen : p.length + 4 < 2 ^ 32) (hp : st.pstate = 0)
    (hb : st.buffer = copyDataFrame p ++ rest) :
    parseIter st out
      = dispatch { st with
          pstate := 2, buffer := rest, mcode := code.CopyData, unread := 0,
          copyData := st.copyData ++ p,
          consumed := st.consumed ++ copyDataFrame p } out := by
  have hbe : be32 (p.length + 4)
      = [(p.length + 4) / 2 ^ 24 % 256, (p.length + 4) / 2 ^ 16 % 256,
         (p.length + 4) / 2 ^ 8 % 256, (p.length + 4) % 256] := rfl
  have hrd : rd32 ((p.length + 4) / 2 ^ 24 % 256) ((p.length + 4) / 2 ^ 16 % 256)
      ((p.length + 4) / 2 ^ 8 % 256) ((p.length + 4) % 256) = p.length + 4 :=
    rd32_be32 _ hlen
  simp only [parseIter, hp, if_true, hb, copyDataFrame, hbe]
  simp only [List.cons_append, List.append_assoc]
  rw [if_neg (by decide : ¬code.CopyData = code.ErrorResponse)]
  simp only [stage2, if_pos rfl]
  simp only [stage3, if_pos rfl]
  rw [hrd]
  have hu4 : ((p.length + 4 : Nat) : Int) - 4 = (p.length : Int) := by push_cast; ring
  rw [hu4]
  simp only [if_true, List.nil_append]
  by_cases hpe : p = []
  · subst hpe
    rw [consumeStep_skip _ (by simp)]
    congr 1
    simp [copyDataFrame, be32]
  · rw [consumeStep_exact _ p rest rfl hpe rfl rfl]
    congr 1
    simp [copyDataFrame, hbe, List.append_assoc]

theorem parseIter_frame (st : St) (p rest : List Byte) (out : List (List Byte))
    (hlen : p.length + 4 < 2 ^ 32) (hrow : st.rowMode = false) (hp : st.pstate = 0)
    (hb : st.buffer = copyDataFrame p ++ rest) :
    parseIter st out
      = .next { st with
          pstate := 0, buffer := rest, mcode := code.CopyData, unread := 0,
          copyData := st.copyData ++ p,
          consumed := st.consumed ++ copyDataFrame p } out := by
  rw [parseIter_frame_core st p rest out hlen hp hb,
      dispatch_copyData_raw { st with
        pstate := 2, buffer := rest, mcode := code.CopyData, unread := 0,
        copyData := st.copyData ++ p,
        consumed := st.consumed ++ copyDataFrame p } out rfl rfl hrow]

theorem parseIter_frame_row (st : St) (p rest : List Byte) (out : List (List Byte))
    (hlen : p.length + 4 < 2 ^ 32) (hrow : st.rowMode = true) (hcd : st.copyData = [])
    (hp : st.pstate = 0) (hb : st.buffer = copyDataFrame p ++ rest) :
    parseIter st out
      = .next { st with
          pstate := 0, buffer := rest, mcode := code.CopyData, unread := 0,
          copyData := [],
          consumed := st.consumed ++ copyDataFrame p }
          (out ++ if p = [] then [] else [p]) := by
  rw [parseIter_frame_core st p rest out hlen hp hb,
      dispatch_copyData_row { st with
        pstate := 2, buffer := rest, mcode := code.CopyData, unread := 0,
        copyData := st.copyData ++ p,
        consumed := st.consumed ++ copyDataFrame p } out rfl rfl hrow]
  by_cases hpe : p = []
  · simp [hcd, hpe]
  · simp [hcd, hpe]

theorem parseIter_err (st : St) (out : List (List Byte)) (rest : List Byte) (hp : st.pstate = 0)
    (hb : st.buffer = code.ErrorResponse :: rest) :
    parseIter st out = .err { st with mcode := code.ErrorResponse } out := by
  simp [parseIter, hp, hb]

theorem framesBytes_length (qs : List (List Byte)) :
    (framesBytes qs).length = 5 * qs.length + qs.flatten.length := by
  induction qs with
  | nil => rfl
  | cons q qs ih =>
    simp only [framesBytes, List.map_cons, List.flatten_cons, List.length_append,
      List.flatten_cons, List.length_cons] at *
    simp [copyDataFrame, be32, ih]
    omega

theorem afterFrames_cons (st : St) (q : List Byte) (qs : List (List Byte)) (tail : List Byte) :
    afterFrames { st with
        pstate := 0, buffer := framesBytes qs ++ tail, mcode := code.CopyData, unread := 0,
        copyData := st.copyData ++ q, consumed := st.consumed ++ copyDataFrame q } qs tail
      = afterFrames st (q :: qs) tail := by
  cases qs with
  | nil => simp [afterFrames, framesBytes]
  | cons r rs => simp [afterFrames, framesBytes, List.append_assoc]

theorem parseLoop_frames (qs : List (List Byte)) (f : Nat) :
    ∀ (st : St) (out : List (List Byte)) (tail : List Byte), framesLenOK qs →
    st.rowMode = false → st.pstate = 0 → st.buffer = framesBytes qs ++ tail →
    parseLoop (f + qs.length) st out = parseLoop f (afterFrames st qs tail) out := by
  induction qs with
  | nil =>
    intro st out tail hlen hrow hp hb
    simp only [framesBytes, List.map_nil, List.flatten_nil, List.nil_append] at hb
    subst hb
    rfl
  | cons q qs ih =>
    intro st out tail hlen hrow hp hb
    have hq : q.length + 4 < 2 ^ 32 := hlen q (by simp)
    have hqs : framesLenOK qs := fun p hp' => hlen p (by simp [hp'])
    have hb' : st.buffer = copyDataFrame q ++ (framesBytes qs ++ tail) := by
      rw [hb]
      simp [framesBytes, List.append_assoc]
    have hne : st.buffer ≠ [] := by
      rw [hb']
      simp [copyDataFrame]
    have hstep := parseIter_frame st q (framesBytes qs ++ tail) out hq hrow hp hb'
    have hfe : f + (q :: qs).length = (f + qs.length) + 1 := by simp; ring
    rw [hfe, parseLoop_step _ _ _ _ _ hne hstep]
    rw [ih { st with
          pstate := 0, buffer := framesBytes qs ++ tail, mcode := code.CopyData, unread := 0,
          copyData := st.copyData ++ q, consumed := st.consumed ++ copyDataFrame q }
        out tail hqs hrow rfl rfl]
    rw [afterFrames_cons]

theorem afterFramesRow_cons (st : St) (q : List Byte) (qs : List (List Byte)) (tail : List Byte) :
    afterFramesRow { st with
        pstate := 0, buffer := framesBytes qs ++ tail, mcode := code.CopyData, unread := 0,
        copyData := [], consumed := st.consumed ++ copyDataFrame q } qs tail
      = afterFramesRow st (q :: qs) tail := by
  cases qs with
  | nil => simp [afterFramesRow, framesBytes]
  | cons r rs => simp [afterFramesRow, framesBytes, List.append_assoc]

theorem parseLoop_frames_row (qs : List (List Byte)) (f : Nat) :
    ∀ (st : St) (out : List (List Byte)) (tail : List Byte), framesLenOK qs →
    st.rowMode = true → st.copyData = [] → st.pstate = 0 →
    st.buffer = framesBytes qs ++ tail →
    parseLoop (f + qs.length) st out
      = parseLoop f (afterFramesRow st qs tail)
          (out ++ qs.filter (fun p => p ≠ [])) := by
  induction qs with
  | nil =>
    intro st out tail hlen hrow hcd hp hb
    simp only [framesBytes, List.map_nil, List.flatten_nil, List.nil_append] at hb
    subst hb
    simp [afterFramesRow]
  | cons q qs ih =>
    intro st out tail hlen hrow hcd hp hb
    have hq : q.length + 4 < 2 ^ 32 := hlen q (by simp)
    have hqs : framesLenOK qs := fun p hp' => hlen p (by simp [hp'])
    have hb' : st.buffer = copyDataFrame q ++ (framesBytes qs ++ tail) := by
      rw [hb]
      simp [framesBytes, List.append_assoc]
    have hne : st.buffer ≠ [] := by
      rw [hb']
      simp [copyDataFrame]
    have hstep := parseIter_frame_row st q (framesBytes qs ++ tail) out hq hrow hcd hp hb'
    have hfe : f + (q :: qs).length = (f + qs.length) + 1 := by simp; ring
    rw [hfe, parseLoop_step _ _ _ _ _ hne hstep]
    rw [ih { st with
          pstate := 0, buffer := framesBytes qs ++ tail, mcode := code.CopyData, unread := 0,
          copyData := [], consumed := st.consumed ++ copyDataFrame q }
        (out ++ if q = [] then [] else [q]) tail hqs hrow rfl rfl rfl]
    rw [afterFramesRow_cons]
    by_cases hqe : q = [] <;> simp [List.filter_cons, hqe]

theorem parse_frames_row_all (ps : List (List Byte)) (h : framesLenOK ps) :
    (parse (init true) (framesBytes ps)).map (fun r => (r.out, r.eos, r.replay))
      = some (ps.filter (fun p => p ≠ []), false, none) := by
  rw [parse_eq_map]
  have hge := framesBytes_length ps
  have hfe : (init true).buffer.length + (framesBytes ps).length + 1
      = ((framesBytes ps).length + 1 - ps.length) + ps.length := by
    simp [init]
    omega
  rw [hfe, parseLoop_frames_row ps ((framesBytes ps).length + 1 - ps.length)
      { init true with buffer := (init true).buffer ++ framesBytes ps } [] []
      h rfl rfl rfl (by simp [init])]
  rw [parseLoop_nil _ _ _ (by cases ps <;> rfl)]
  cases ps <;> simp [finish, afterFramesRow, init]

theorem parse_frames_then_error (rm : Bool) (ps : List (List Byte)) (rest : List Byte)
    (h : framesLenOK ps) :
    (parse (init rm) (framesBytes ps ++ code.ErrorResponse :: rest)).map
        (fun r => (r.eos, r.replay, r.st.consumed))
      = some (false, some (code.ErrorResponse :: rest), framesBytes ps) := by
  rw [parse_eq_map]
  have hge := framesBytes_length ps
  have hfe : (init rm).buffer.length + (framesBytes ps ++ code.ErrorResponse :: rest).length + 1
      = ((framesBytes ps).length - ps.length + rest.length + 2) + ps.length := by
    simp [init]
    omega
  have herr : ∀ (g : Nat) (A : St) (out : List (List Byte)), 0 < g → A.pstate = 0 →
      A.buffer = code.ErrorResponse :: rest → A.consumed = framesBytes ps →
      ((parseLoop g A out).map finish).map (fun r => (r.eos, r.replay, r.st.consumed))
        = some (false, some (code.ErrorResponse :: rest), framesBytes ps) := by
    intro g A out hg hp0 hbA hcA
    obtain ⟨g1, rfl⟩ : ∃ g1, g = g1 + 1 := ⟨g - 1, by omega⟩
    have hne : A.buffer ≠ [] := by rw [hbA]; simp
    rw [parseLoop_err1 _ _ _ _ _ hne (parseIter_err A out rest hp0 hbA)]
    simp [finish, detach, hbA, hcA]
  cases rm with
  | false =>
    rw [hfe, parseLoop_frames ps ((framesBytes ps).length - ps.length + rest.length + 2)
        { init false with
          buffer := (init false).buffer ++ (framesBytes ps ++ code.ErrorResponse :: rest) }
        [] (code.ErrorResponse :: rest) h rfl rfl (by simp [init, List.append_assoc])]
    cases ps with
    | nil => exact herr _ _ _ (by omega) rfl rfl rfl
    | cons q qs => exact herr _ _ _ (by omega) rfl rfl (by simp [afterFrames, init])
  | true =>
    rw [hfe, parseLoop_frames_row ps ((framesBytes ps).length - ps.length + rest.length + 2)
        { init true with
          buffer := (init true).buffer ++ (framesBytes ps ++ code.ErrorResponse :: rest) }
        [] (code.ErrorResponse :: rest) h rfl rfl rfl (by simp [init, List.append_assoc])]
    cases ps with
    | nil => exact herr _ _ _ (by omega) rfl rfl rfl
    | cons q qs => exact herr _ _ _ (by omega) rfl rfl (by show ([] : List Byte) ++ _ = _; simp)

/-! Termination of the `_parse` loop: under the declared-length scan
`lensOK`, every loop pass from a nonempty accumulator either consumes at
least one byte or exits the loop. -/

theorem lensOK_code_nil (u : Int) : lensOK 0 u [] = true := by
  unfold lensOK
  norm_num

theorem lensOK_msg_short (u : Int) (B : List Byte) (h : B.length ≤ u.toNat) :
    lensOK 2 u B = true := by
  unfold lensOK
  by_cases hu : u ≤ 0 <;> simp [hu, h]

theorem dispatch_cases (s : St) (out : List (List Byte)) (hu : s.unread = 0) :
    (∃ st1 out1, dispatch s out = .next st1 out1 ∧ st1.buffer = s.buffer ∧ st1.pstate = 0 ∧
       st1.unread = 0)
    ∨ (∃ st1 out1, dispatch s out = .stop st1 out1) := by
  rw [dispatch, if_pos hu]
  by_cases h87 : s.mcode = code.CopyBothResponse
  · rw [if_pos h87]
    exact Or.inl ⟨_, _, rfl, by simp [startCopyIn_eq], by simp [startCopyIn_eq], by
      simp [startCopyIn_eq, hu]⟩
  · rw [if_neg h87]
    by_cases h100 : s.mcode = code.CopyData
    · rw [if_pos h100]
      by_cases hrm : s.rowMode
      · simp only [hrm, if_true]
        by_cases hcd : s.copyData = [] <;>
          exact Or.inl ⟨_, _, rfl, by simp [flushCopyData, hcd], by simp [flushCopyData, hcd],
            by simp [flushCopyData, hcd, hu]⟩
      · simp only [hrm, if_false]
        exact Or.inl ⟨_, _, rfl, rfl, rfl, hu⟩
    · rw [if_neg h100]
      by_cases hinfo : s.mcode = code.ParameterStatus ∨ s.mcode = code.NoticeResponse ∨
          s.mcode = code.NotificationResponse
      · rw [if_pos hinfo]
        exact Or.inl ⟨_, _, rfl, rfl, rfl, hu⟩
      · rw [if_neg hinfo]
        exact Or.inr ⟨_, _, rfl⟩

theorem stage3_progress (s : St) (out : List (List Byte)) (hp2 : s.pstate = 2)
    (hu0 : 0 ≤ s.unread)
    (hok0 : lensOK 0 0 (s.buffer.drop s.unread.toNat) = true ∨
      s.buffer.length ≤ s.unread.toNat) :
    (∃ st1 out1, stage3 s out = .next st1 out1 ∧ Inv st1 ∧
       st1.buffer.length ≤ s.buffer.length ∧
       (0 < s.unread → s.buffer ≠ [] → st1.buffer.length < s.buffer.length))
    ∨ (∃ st1 out1, stage3 s out = .stop st1 out1) := by
  rw [stage3, if_pos hp2]
  by_cases hc : 0 < s.unread ∧ s.buffer ≠ []
  · obtain ⟨hupos, hbne⟩ := hc
    have hcs : consumeStep s = { s with
        buffer := s.buffer.drop (min s.buffer.length s.unread.toNat),
        unread := s.unread - (min s.buffer.length s.unread.toNat : Nat),
        consumed := s.consumed ++ s.buffer.take (min s.buffer.length s.unread.toNat),
        copyData := if s.mcode = code.CopyData
          then s.copyData ++ s.buffer.take (min s.buffer.length s.unread.toNat)
          else s.copyData } := by
      rw [consumeStep, if_pos ⟨hupos, hbne⟩]
    rw [hcs]
    have hkpos : 0 < s.unread.toNat := by omega
    have hbpos : 0 < s.buffer.length := List.length_pos.mpr hbne
    have hnpos : 0 < min s.buffer.length s.unread.toNat := by omega
    by_cases hz : s.unread - (min s.buffer.length s.unread.toNat : Nat) = 0
    · rcases dispatch_cases { s with
          buffer := s.buffer.drop (min s.buffer.length s.unread.toNat),
          unread := s.unread - (min s.buffer.length s.unread.toNat : Nat),
          consumed := s.consumed ++ s.buffer.take (min s.buffer.length s.unread.toNat),
          copyData := if s.mcode = code.CopyData
            then s.copyData ++ s.buffer.take (min s.buffer.length s.unread.toNat)
            else s.copyData } out hz with ⟨st1, out1, hd, hb, hp, hu1⟩ | ⟨st1, out1, hd⟩
      · refine Or.inl ⟨st1, out1, hd, ⟨Or.inl hp, by simp [hp], by simp [hu1], ?_⟩, ?_, ?_⟩
        · rw [hp, hu1, hb]
          show lensOK 0 0 ((s.buffer.drop (min s.buffer.length s.unread.toNat))) = true
          rcases Nat.le_total s.buffer.length s.unread.toNat with hle | hle
          · rw [Nat.min_eq_left hle, List.drop_length]
            exact lensOK_code_nil 0
          · rw [Nat.min_eq_right hle]
            rcases hok0 with hok0 | hok0
            · exact hok0
            · have : s.buffer.length = s.unread.toNat := le_antisymm hok0 hle
              rw [← this, List.drop_length]
              exact lensOK_code_nil 0
        · rw [hb]
          simp
        · intro _ _
          rw [hb]
          simp
          omega
      · exact Or.inr ⟨st1, out1, hd⟩
    · rw [dispatch_pending { s with
          buffer := s.buffer.drop (min s.buffer.length s.unread.toNat),
          unread := s.unread - (min s.buffer.length s.unread.toNat : Nat),
          consumed := s.consumed ++ s.buffer.take (min s.buffer.length s.unread.toNat),
          copyData := if s.mcode = code.CopyData
            then s.copyData ++ s.buffer.take (min s.buffer.length s.unread.toNat)
            else s.copyData } out hz]
      have hmin : min s.buffer.length s.unread.toNat = s.buffer.length := by omega
      refine Or.inl ⟨_, _, rfl, ⟨Or.inr (Or.inr hp2), fun _ => by simp; omega, by simp; omega, ?_⟩,
        by simp, fun _ _ => by simp; omega⟩
      show lensOK s.pstate _ _ = true
      rw [hp2]
      exact lensOK_msg_short _ _ (by simp [hmin])
  · rw [consumeStep_skip _ hc]
    by_cases hu : s.unread = 0
    · rcases dispatch_cases s out hu with ⟨st1, out1, hd, hb, hp, hu1⟩ | ⟨st1, out1, hd⟩
      · refine Or.inl ⟨st1, out1, hd, ⟨Or.inl hp, by simp [hp], by simp [hu1], ?_⟩,
          by rw [hb], fun hlt _ => absurd hu (by omega)⟩
        rw [hp, hu1, hb]
        rcases hok0 with hok0 | hok0
        · simpa [hu] using hok0
        · have : s.buffer = [] := by
            rw [hu] at hok0
            simpa using List.length_eq_zero.mp (by omega)
          rw [this]
          exact lensOK_code_nil 0
      · exact Or.inr ⟨st1, out1, hd⟩
    · have hbe : s.buffer = [] := by
        by_contra hne
        exact hc ⟨by omega, hne⟩
      rw [dispatch_pending s out hu]
      exact Or.inl ⟨s, out, rfl, ⟨Or.inr (Or.inr hp2), fun _ => by omega, hu0, by
        rw [hp2, hbe]; exact lensOK_msg_short _ _ (by simp)⟩, le_refl _,
        fun _ hne => absurd hbe hne⟩

theorem stage2_progress (s : St) (u : Int) (out : List (List Byte)) (hp1 : s.pstate = 1)
    (hok : lensOK 1 u s.buffer = true) :
    (∃ st1 out1, stage2 s out = .next st1 out1 ∧ Inv st1 ∧
       st1.buffer.length + 4 ≤ s.buffer.length)
    ∨ (∃ st1 out1, stage2 s out = .brk st1 out1)
    ∨ (∃ st1 out1, stage2 s out = .stop st1 out1) := by
  rw [stage2, if_pos hp1]
  rcases hB : s.buffer with _ | ⟨b0, t0⟩
  · exact Or.inr (Or.inl ⟨_, _, rfl⟩)
  rcases t0 with _ | ⟨b1, t1⟩
  · exact Or.inr (Or.inl ⟨_, _, rfl⟩)
  rcases t1 with _ | ⟨b2, t2⟩
  · exact Or.inr (Or.inl ⟨_, _, rfl⟩)
  rcases t2 with _ | ⟨b3, r2⟩
  · exact Or.inr (Or.inl ⟨_, _, rfl⟩)
  dsimp only
  rw [hB] at hok
  unfold lensOK at hok
  norm_num at hok
  obtain ⟨hL4, hok1⟩ := hok
  have hu0 : (0 : Int) ≤ (rd32 b0 b1 b2 b3 : Int) - 4 := by omega
  have htn : ((rd32 b0 b1 b2 b3 : Int) - 4).toNat = rd32 b0 b1 b2 b3 - 4 := by omega
  have hok0 : lensOK 0 0 (r2.drop ((rd32 b0 b1 b2 b3 : Int) - 4).toNat) = true ∨
      r2.length ≤ ((rd32 b0 b1 b2 b3 : Int) - 4).toNat := by
    rcases hok1 with hsh | hok1
    · exact Or.inr (by omega)
    · exact Or.inl (by rw [htn]; exact hok1)
  rcases stage3_progress { s with
      buffer := r2, unread := (rd32 b0 b1 b2 b3 : Int) - 4, pstate := 2,
      consumed := s.consumed ++ [b0, b1, b2, b3] } out rfl hu0 hok0 with
    ⟨st1, out1, hd, hinv1, hle, _⟩ | ⟨st1, out1, hd⟩
  · exact Or.inl ⟨st1, out1, hd, hinv1, by simp at hle ⊢; omega⟩
  · exact Or.inr (Or.inr ⟨st1, out1, hd⟩)

theorem parseIter_progress (st : St) (out : List (List Byte)) (hne : st.buffer ≠ [])
    (hinv : Inv st) :
    (∃ st1 out1, parseIter st out = .next st1 out1 ∧ Inv st1 ∧
       st1.buffer.length < st.buffer.length)
    ∨ (∃ st1 out1, parseIter st out = .brk st1 out1)
    ∨ (∃ st1 out1, parseIter st out = .stop st1 out1)
    ∨ (∃ st1 out1, parseIter st out = .err st1 out1) := by
  obtain ⟨hps, h2, hu0, hok⟩ := hinv
  rcases hps with hp0 | hp1 | hp2
  · rw [parseIter, if_pos hp0]
    rcases hB : st.buffer with _ | ⟨b, rest⟩
    · exact absurd hB hne
    dsimp only
    by_cases hbe : b = code.ErrorResponse
    · rw [if_pos hbe]
      exact Or.inr (Or.inr (Or.inr ⟨_, _, rfl⟩))
    rw [if_neg hbe]
    rw [hp0, hB] at hok
    unfold lensOK at hok
    norm_num at hok
    have hok1 := hok.resolve_left hbe
    rcases stage2_progress { st with
        mcode := b, buffer := rest, pstate := 1, consumed := st.consumed ++ [b] } 0 out rfl hok1
      with ⟨st1, out1, hd, hinv1, hle⟩ | ⟨st1, out1, hd⟩ | ⟨st1, out1, hd⟩
    · refine Or.inl ⟨st1, out1, hd, hinv1, ?_⟩
      simp at hle ⊢
      omega
    · exact Or.inr (Or.inl ⟨st1, out1, hd⟩)
    · exact Or.inr (Or.inr (Or.inl ⟨st1, out1, hd⟩))
  · rw [parseIter, if_neg (by rw [hp1]; norm_num)]
    rw [hp1] at hok
    rcases stage2_progress st st.unread out hp1 hok
      with ⟨st1, out1, hd, hinv1, hle⟩ | ⟨st1, out1, hd⟩ | ⟨st1, out1, hd⟩
    · exact Or.inl ⟨st1, out1, hd, hinv1, by omega⟩
    · exact Or.inr (Or.inl ⟨st1, out1, hd⟩)
    · exact Or.inr (Or.inr (Or.inl ⟨st1, out1, hd⟩))
  · rw [parseIter, if_neg (by rw [hp2]; norm_num), stage2, if_neg (by rw [hp2]; norm_num)]
    have hupos : 0 < st.unread := h2 hp2
    rw [hp2] at hok
    unfold lensOK at hok
    norm_num at hok
    have hok0 : lensOK 0 0 (st.buffer.drop st.unread.toNat) = true ∨
        st.buffer.length ≤ st.unread.toNat := by
      rcases hok with h | h | h
      · omega
      · exact Or.inr h
      · exact Or.inl h
    rcases stage3_progress st out hp2 hu0 hok0
      with ⟨st1, out1, hd, hinv1, hle, hstrict⟩ | ⟨st1, out1, hd⟩
    · exact Or.inl ⟨st1, out1, hd, hinv1, hstrict hupos hne⟩
    · exact Or.inr (Or.inr (Or.inl ⟨st1, out1, hd⟩))

theorem parseLoop_total (f : Nat) : ∀ (st : St) (out : List (List Byte)),
    st.buffer.length < f → Inv st → (parseLoop f st out).isSome = true := by
  induction f with
  | zero =>
    intro st out h _
    omega
  | succ f ih =>
    intro st out hlt hinv
    by_cases hb : st.buffer = []
    · rw [parseLoop_nil _ _ _ hb]
      rfl
    · rcases parseIter_progress st out hb hinv with
        ⟨st1, out1, hit, hinv1, hdec⟩ | ⟨st1, out1, hit⟩ | ⟨st1, out1, hit⟩ | ⟨st1, out1, hit⟩
      · rw [parseLoop_step f st out st1 out1 hb hit]
        exact ih st1 out1 (by omega) hinv1
      · rw [parseLoop_brk f st out st1 out1 hb hit]
        rfl
      · rw [parseLoop_stop1 f st out st1 out1 hb hit]
        rfl
      · rw [parseLoop_err1 f st out st1 out1 hb hit]
        rfl

/-- One `_parse` call terminates whenever every reachable frame length
field of the delivered chunk declares at least 4. -/
theorem parse_total (rm : Bool) (chunk : List Byte) (hok : lensOK 0 0 chunk = true) :
    (parse (init rm) chunk).isSome = true := by
  rw [parse_eq_map]
  rw [Option.isSome_map']
  apply parseLoop_total
  · simp [init]
  · refine ⟨Or.inl rfl, fun hx => absurd hx (by norm_num [init]), le_refl _, ?_⟩
    show lensOK 0 0 ([] ++ chunk) = true
    simpa using hok

/-! Chunk-boundary independence: one `_parse` call from any mid-stream
decoder position (`Rep`) consumes its chunk and lands in the `Rep`
position that many bytes further on, accounting for every payload byte
pushed; `feed_rep` folds this over a whole chunk sequence. -/

theorem parseIter_msg (s : St) (t t2 : List Byte) (out : List (List Byte))
    (hp2 : s.pstate = 2) (hm : s.mcode = code.CopyData) (hrow : s.rowMode = false)
    (ht : t ≠ []) (hu : s.unread = (t.length : Int)) (hb : s.buffer = t ++ t2) :
    parseIter s out
      = .next { s with
          pstate := 0, buffer := t2, unread := 0, copyData := s.copyData ++ t,
          consumed := s.consumed ++ t } out := by
  rw [parseIter, if_neg (by rw [hp2]; norm_num), stage2, if_neg (by rw [hp2]; norm_num),
      stage3, if_pos hp2]
  rw [consumeStep_exact s t t2 hu ht hb hm]
  rw [dispatch_copyData_raw { s with
      buffer := t2, unread := 0, copyData := s.copyData ++ t,
      consumed := s.consumed ++ t } out rfl hm hrow]

theorem parseIter_len (s : St) (p t2 : List Byte) (out : List (List Byte))
    (hlen : p.length + 4 < 2 ^ 32) (hp1 : s.pstate = 1) (hm : s.mcode = code.CopyData)
    (hrow : s.rowMode = false) (hb : s.buffer = be32 (p.length + 4) ++ (p ++ t2)) :
    parseIter s out
      = .next { s with
          pstate := 0, buffer := t2, unread := 0, copyData := s.copyData ++ p,
          consumed := s.consumed ++ be32 (p.length + 4) ++ p } out := by
  have hbe : be32 (p.length + 4)
      = [(p.length + 4) / 2 ^ 24 % 256, (p.length + 4) / 2 ^ 16 % 256,
         (p.length + 4) / 2 ^ 8 % 256, (p.length + 4) % 256] := rfl
  have hrd : rd32 ((p.length + 4) / 2 ^ 24 % 256) ((p.length + 4) / 2 ^ 16 % 256)
      ((p.length + 4) / 2 ^ 8 % 256) ((p.length + 4) % 256) = p.length + 4 :=
    rd32_be32 _ hlen
  rw [parseIter, if_neg (by rw [hp1]; norm_num), stage2, if_pos hp1, hb, hbe]
  simp only [List.cons_append]
  rw [stage3, if_pos rfl, hrd, hm]
  have hu4 : ((p.length + 4 : Nat) : Int) - 4 = (p.length : Int) := by push_cast; ring
  rw [hu4]
  by_cases hpe : p = []
  · subst hpe
    rw [consumeStep_skip _ (by simp)]
    norm_num [hbe]
    rw [dispatch_copyData_raw { s with
        buffer := t2, unread := 0, pstate := 2, mcode := code.CopyData,
        consumed := s.consumed ++ [0, 0, 0, 4] } out rfl rfl hrow]
  · rw [consumeStep_exact _ p t2 rfl hpe rfl rfl]
    rw [dispatch_copyData_raw { s with
        buffer := t2, unread := 0, pstate := 2, mcode := code.CopyData,
        copyData := s.copyData ++ p,
        consumed := (s.consumed ++ [(p.length + 4) / 2 ^ 24 % 256,
          (p.length + 4) / 2 ^ 16 % 256, (p.length + 4) / 2 ^ 8 % 256,
          (p.length + 4) % 256]) ++ p } out rfl rfl hrow]

theorem parseLoop_tail (s : St) (r : List Byte) (m : Nat) (f : Nat) (out : List (List Byte))
    (hrlen : r.length + 4 < 2 ^ 32) (hp : s.pstate = 0)
    (hm1 : 1 ≤ m) (hm2 : m < 5 + r.length) (hb : s.buffer = (copyDataFrame r).take m)
    (hf : 1 ≤ f) :
    parseLoop f s out = some (.normal (exitSt s r m) out) := by
  obtain ⟨f1, rfl⟩ : ∃ f1, f = f1 + 1 := ⟨f - 1, by omega⟩
  have hbe : be32 (r.length + 4)
      = [(r.length + 4) / 2 ^ 24 % 256, (r.length + 4) / 2 ^ 16 % 256,
         (r.length + 4) / 2 ^ 8 % 256, (r.length + 4) % 256] := rfl
  have hlen4 : (be32 (r.length + 4)).length = 4 := by rw [hbe]; rfl
  by_cases hm4 : m ≤ 4
  · have hbuf : s.buffer = code.CopyData :: (be32 (r.length + 4)).take (m - 1) := by
      rw [hb, copyDataFrame]
      interval_cases m <;> simp [hbe]
    have hne : s.buffer ≠ [] := by rw [hbuf]; simp
    have hit : parseIter s out
        = .brk { s with
            pstate := 1, buffer := (be32 (r.length + 4)).take (m - 1),
            mcode := code.CopyData, consumed := s.consumed ++ [code.CopyData] } out := by
      rw [parseIter, if_pos hp, hbuf]
      dsimp only
      rw [if_neg (by decide)]
      rw [stage2, if_pos rfl]
      interval_cases m <;> simp [hbe]
    rw [parseLoop_brk _ _ _ _ _ hne hit]
    rw [exitSt, if_pos hm4]
  · have h5 : 5 ≤ m := by omega
    have htk : (r.take (m - 5)).length = m - 5 := by
      rw [List.length_take]
      omega
    have hbuf : s.buffer = code.CopyData :: (be32 (r.length + 4) ++ r.take (m - 5)) := by
      rw [hb, copyDataFrame]
      nth_rewrite 1 [show m = (m - 1) + 1 from by omega]
      rw [List.take_succ_cons, List.take_append_eq_append_take,
          List.take_of_length_le (by rw [hlen4]; omega), hlen4,
          show m - 1 - 4 = m - 5 from by omega]
    have hne : s.buffer ≠ [] := by rw [hbuf]; simp
    have hrd : rd32 ((r.length + 4) / 2 ^ 24 % 256) ((r.length + 4) / 2 ^ 16 % 256)
        ((r.length + 4) / 2 ^ 8 % 256) ((r.length + 4) % 256) = r.length + 4 :=
      rd32_be32 _ hrlen
    have hu4 : ((r.length + 4 : Nat) : Int) - 4 = (r.length : Int) := by push_cast; ring
    have hit : parseIter s out
        = .next { s with
            pstate := 2, buffer := [], mcode := code.CopyData,
            unread := ((5 + r.length - m : Nat) : Int),
            copyData := s.copyData ++ r.take (m - 5),
            consumed := s.consumed ++ (copyDataFrame r).take m } out := by
      rw [parseIter, if_pos hp, hbuf]
      dsimp only
      rw [if_neg (by decide)]
      rw [stage2, if_pos rfl, hbe]
      simp only [List.cons_append]
      rw [stage3, if_pos rfl, hrd, hu4]
      by_cases hm5 : m = 5
      · subst hm5
        norm_num
        rw [consumeStep_skip _ (by simp)]
        rw [dispatch_pending ⟨2, [], code.CopyData, (r.length : Int), s.copyData, s.rowMode,
            s.got, s.queue, s.sent,
            s.consumed ++ [code.CopyData, (r.length + 4) / 16777216 % 256,
              (r.length + 4) / 65536 % 256, (r.length + 4) / 256 % 256,
              (r.length + 4) % 256]⟩ out
          (by show ¬((r.length : Int) = 0); omega)]
        congr 1
      · have hne5 : r.take (m - 5) ≠ [] := by
          intro hx
          have hxl := congrArg List.length hx
          rw [htk] at hxl
          simp at hxl
          omega
        rw [consumeStep_short { s with
            buffer := [] ++ r.take (m - 5), unread := ((r.length : Nat) : Int), pstate := 2,
            mcode := code.CopyData,
            consumed := s.consumed ++ [code.CopyData] ++ [(r.length + 4) / 2 ^ 24 % 256,
              (r.length + 4) / 2 ^ 16 % 256, (r.length + 4) / 2 ^ 8 % 256,
              (r.length + 4) % 256] } (r.take (m - 5)) r.length rfl (by rw [htk]; omega) hne5
          (by simp) rfl]
        rw [dispatch_pending { s with
            buffer := [], unread := ((r.length - (r.take (m - 5)).length : Nat) : Int),
            pstate := 2, mcode := code.CopyData,
            copyData := s.copyData ++ r.take (m - 5),
            consumed := (s.consumed ++ [code.CopyData] ++ [(r.length + 4) / 2 ^ 24 % 256,
              (r.length + 4) / 2 ^ 16 % 256, (r.length + 4) / 2 ^ 8 % 256,
              (r.length + 4) % 256]) ++ r.take (m - 5) } out
          (by show ¬(((r.length - (r.take (m - 5)).length : Nat) : Int) = 0); rw [htk]; omega)]
        congr 1
        simp [copyDataFrame, hbe, htk, List.append_assoc]
        refine ⟨by omega, ?_⟩
        rw [show m = m - 5 + 1 + 1 + 1 + 1 + 1 from by omega]
        simp [List.take_succ_cons]
    rw [parseLoop_step _ _ _ _ _ hne hit, parseLoop_nil _ _ _ rfl]
    rw [exitSt, if_neg hm4]

theorem parseLoop_run (qs : List (List Byte)) (r : List Byte) (m : Nat) (f : Nat) (st : St)
    (out : List (List Byte)) (hlen : framesLenOK qs) (hrlen : r.length + 4 < 2 ^ 32)
    (hrow : st.rowMode = false) (hp : st.pstate = 0) (hm : m < 5 + r.length)
    (hb : st.buffer = framesBytes qs ++ (copyDataFrame r).take m)
    (hf : qs.length + 1 ≤ f) :
    parseLoop f st out
      = some (.normal (if m = 0 then afterFrames st qs []
          else exitSt (afterFrames st qs ((copyDataFrame r).take m)) r m) out) := by
  by_cases hm0 : m = 0
  · subst hm0
    rw [show f = (f - qs.length) + qs.length from by omega,
        parseLoop_frames qs (f - qs.length) st out [] hlen hrow hp (by simpa using hb)]
    rw [parseLoop_nil _ _ _ (by cases qs <;> rfl)]
    rw [if_pos rfl]
  · rw [show f = (f - qs.length) + qs.length from by omega,
        parseLoop_frames qs (f - qs.length) st out ((copyDataFrame r).take m) hlen hrow hp hb]
    rw [parseLoop_tail (afterFrames st qs ((copyDataFrame r).take m)) r m _ out hrlen
        (by cases qs <;> simp [afterFrames, hp]) (by omega) hm (by cases qs <;> rfl)
        (by omega)]
    rw [if_neg hm0]

theorem flushCopyData_eq (A : St) (out : List (List Byte)) :
    flushCopyData A out
      = ({ A with copyData := [] }, out ++ if A.copyData = [] then [] else [A.copyData]) := by
  by_cases h : A.copyData = []
  · simp [flushCopyData, h]
    cases A
    simp_all
  · simp [flushCopyData, h]

theorem finish_normal_raw (E : St) (out : List (List Byte)) (hrow : E.rowMode = false) :
    finish (.normal E out)
      = ⟨{ E with copyData := [] },
          out ++ (if E.copyData = [] then [] else [E.copyData]), false, none⟩ := by
  simp [finish, hrow, flushCopyData_eq]

theorem afterFrames_fields (st : St) (qs : List (List Byte)) (tail : List Byte)
    (hp : st.pstate = 0) (hu : st.unread = 0) :
    (afterFrames st qs tail).pstate = 0 ∧ (afterFrames st qs tail).unread = 0 ∧
    (afterFrames st qs tail).buffer = tail ∧ (afterFrames st qs tail).rowMode = st.rowMode ∧
    (afterFrames st qs tail).copyData = st.copyData ++ qs.flatten ∧
    (afterFrames st qs tail).mcode = (if qs = [] then st.mcode else code.CopyData) := by
  cases qs <;> simp [afterFrames, hp, hu]

theorem run_finish_frames (B : St) (qs qs' : List (List Byte)) (f : Nat)
    (hrow : B.rowMode = false) (hp : B.pstate = 0) (hu : B.unread = 0)
    (hlen : framesLenOK qs) (hlen' : framesLenOK qs')
    (hb : B.buffer = framesBytes qs) (hf : qs.length + 1 ≤ f) :
    ∃ st1, (parseLoop f B []).map finish
        = some ⟨st1, if B.copyData ++ qs.flatten = [] then []
            else [B.copyData ++ qs.flatten], false, none⟩
      ∧ Rep st1 (framesBytes qs') qs'.flatten := by
  obtain ⟨hp1, hu1, hb1, hr1, hcd1, -⟩ := afterFrames_fields B qs [] hp hu
  rw [parseLoop_run qs [] 0 f B [] hlen (by norm_num) hrow hp (by norm_num)
      (by rw [hb]; simp) hf]
  rw [if_pos rfl, Option.map_some', finish_normal_raw _ _ (by rw [hr1, hrow])]
  refine ⟨{ afterFrames B qs [] with copyData := [] }, by simp [hcd1], ?_⟩
  refine ⟨by simp [hr1, hrow], by simp, Or.inl ⟨by simp [hp1], by simp [hb1], by simp [hu1],
    qs', hlen', rfl, rfl⟩⟩

theorem run_finish_partial (B : St) (qs : List (List Byte)) (r : List Byte) (m : Nat)
    (qs' : List (List Byte)) (f : Nat)
    (hrow : B.rowMode = false) (hp : B.pstate = 0) (hu : B.unread = 0)
    (hlen : framesLenOK qs) (hrq : framesLenOK (r :: qs'))
    (hm1 : 1 ≤ m) (hm2 : m < 5 + r.length)
    (hb : B.buffer = framesBytes qs ++ (copyDataFrame r).take m)
    (hf : qs.length + 1 ≤ f) :
    ∃ st1, (parseLoop f B []).map finish
        = some ⟨st1, if B.copyData ++ qs.flatten ++ r.take (m - 5) = [] then []
            else [B.copyData ++ qs.flatten ++ r.take (m - 5)], false, none⟩
      ∧ Rep st1 ((copyDataFrame r).drop m ++ framesBytes qs')
          (r.drop (m - 5) ++ qs'.flatten) := by
  have hrlen : r.length + 4 < 2 ^ 32 := hrq r (by simp)
  obtain ⟨hp1, hu1, hb1, hr1, hcd1, -⟩ :=
    afterFrames_fields B qs ((copyDataFrame r).take m) hp hu
  rw [parseLoop_run qs r m f B [] hlen hrlen hrow hp hm2 hb hf]
  rw [if_neg (by omega), Option.map_some',
      finish_normal_raw _ _ (by by_cases h4 : m ≤ 4 <;> simp [exitSt, h4, hr1, hrow])]
  refine ⟨{ exitSt (afterFrames B qs ((copyDataFrame r).take m)) r m with copyData := [] },
    ?_, ?_⟩
  · by_cases h4 : m ≤ 4
    · simp [exitSt, h4, hcd1, show m - 5 = 0 from by omega]
    · simp [exitSt, h4, hcd1, List.append_assoc]
  · refine ⟨by by_cases h4 : m ≤ 4 <;> simp [exitSt, h4, hr1, hrow], by simp,
      Or.inr ⟨r, m, qs', hm1, hm2, hrq, rfl, rfl, ?_⟩⟩
    by_cases h4 : m ≤ 4
    · exact Or.inl ⟨h4, by simp [exitSt, h4], by simp [exitSt, h4], by simp [exitSt, h4],
        by simp [exitSt, h4, hu1]⟩
    · exact Or.inr ⟨by omega, by simp [exitSt, h4], by simp [exitSt, h4], by simp [exitSt, h4],
        by simp [exitSt, h4]⟩

theorem parseLoop_len_brk (s : St) (f : Nat) (out : List (List Byte)) (hp1 : s.pstate = 1)
    (hbl : s.buffer.length < 4) (hf : 1 ≤ f) :
    parseLoop f s out = some (.normal s out) := by
  by_cases hbe : s.buffer = []
  · exact parseLoop_nil _ _ _ hbe
  obtain ⟨f1, rfl⟩ : ∃ f1, f = f1 + 1 := ⟨f - 1, by omega⟩
  have hit : parseIter s out = .brk s out := by
    rw [parseIter, if_neg (by rw [hp1]; norm_num), stage2, if_pos hp1]
    rcases hB : s.buffer with _ | ⟨b0, t0⟩
    · rfl
    rcases t0 with _ | ⟨b1, t1⟩
    · rfl
    rcases t1 with _ | ⟨b2, t2⟩
    · rfl
    rcases t2 with _ | ⟨b3, r2⟩
    · rfl
    rw [hB] at hbl
    simp only [List.length_cons] at hbl
    omega
  exact parseLoop_brk _ _ _ _ _ hbe hit

theorem parseLoop_msg_tail (s : St) (u : Nat) (f : Nat) (out : List (List Byte))
    (hp2 : s.pstate = 2) (hm : s.mcode = code.CopyData) (hu : s.unread = (u : Int))
    (hlt : s.buffer.length < u) (hf : 1 ≤ f) :
    parseLoop f s out
      = some (.normal { s with
          buffer := [], unread := ((u - s.buffer.length : Nat) : Int),
          copyData := s.copyData ++ s.buffer,
          consumed := s.consumed ++ s.buffer } out) := by
  by_cases hbe : s.buffer = []
  · rw [parseLoop_nil _ _ _ hbe]
    refine congrArg _ (congrArg₂ _ ?_ rfl)
    cases s
    simp_all
  obtain ⟨f1, rfl⟩ : ∃ f1, f = f1 + 1 := ⟨f - 1, by omega⟩
  have hit : parseIter s out
      = .next { s with
          buffer := [], unread := ((u - s.buffer.length : Nat) : Int),
          copyData := s.copyData ++ s.buffer,
          consumed := s.consumed ++ s.buffer } out := by
    rw [parseIter, if_neg (by rw [hp2]; norm_num), stage2, if_neg (by rw [hp2]; norm_num),
        stage3, if_pos hp2]
    rw [consumeStep_short s s.buffer u hu hlt hbe rfl hm]
    rw [dispatch_pending { s with
        buffer := [], unread := ((u - s.buffer.length : Nat) : Int),
        copyData := s.copyData ++ s.buffer,
        consumed := s.consumed ++ s.buffer } out
      (by show ¬(((u - s.buffer.length : Nat) : Int) = 0); omega)]
  rw [parseLoop_step _ _ _ _ _ hbe hit, parseLoop_nil _ _ _ rfl]

theorem parseLoop_len_tail (s : St) (p : List Byte) (w : Nat) (f : Nat)
    (out : List (List Byte)) (hlen : p.length + 4 < 2 ^ 32) (hp1 : s.pstate = 1)
    (hm : s.mcode = code.CopyData) (hw : 4 ≤ w) (hw2 : w < 4 + p.length)
    (hb : s.buffer = (be32 (p.length + 4) ++ p).take w) (hf : 1 ≤ f) :
    parseLoop f s out
      = some (.normal { s with
          pstate := 2, buffer := [], unread := ((4 + p.length - w : Nat) : Int),
          copyData := s.copyData ++ p.take (w - 4),
          consumed := s.consumed ++ be32 (p.length + 4) ++ p.take (w - 4) } out) := by
  obtain ⟨f1, rfl⟩ : ∃ f1, f = f1 + 1 := ⟨f - 1, by omega⟩
  have hbe : be32 (p.length + 4)
      = [(p.length + 4) / 2 ^ 24 % 256, (p.length + 4) / 2 ^ 16 % 256,
         (p.length + 4) / 2 ^ 8 % 256, (p.length + 4) % 256] := rfl
  have hrd : rd32 ((p.length + 4) / 2 ^ 24 % 256) ((p.length + 4) / 2 ^ 16 % 256)
      ((p.length + 4) / 2 ^ 8 % 256) ((p.length + 4) % 256) = p.length + 4 :=
    rd32_be32 _ hlen
  have hu4 : ((p.length + 4 : Nat) : Int) - 4 = (p.length : Int) := by push_cast; ring
  have htk : (p.take (w - 4)).length = w - 4 := by
    rw [List.length_take]
    omega
  have hbuf : s.buffer = be32 (p.length + 4) ++ p.take (w - 4) := by
    rw [hb, List.take_append_eq_append_take,
        List.take_of_length_le (by rw [hbe]; simp; omega),
        show w - (be32 (p.length + 4)).length = w - 4 from by rw [hbe]; rfl]
  have hne : s.buffer ≠ [] := by
    rw [hbuf, hbe]
    simp
  have hit : parseIter s out
      = .next { s with
          pstate := 2, buffer := [], unread := ((4 + p.length - w : Nat) : Int),
          copyData := s.copyData ++ p.take (w - 4),
          consumed := s.consumed ++ be32 (p.length + 4) ++ p.take (w - 4) } out := by
    rw [parseIter, if_neg (by rw [hp1]; norm_num), stage2, if_pos hp1, hbuf, hbe]
    simp only [List.cons_append]
    rw [stage3, if_pos rfl, hrd, hu4, hm]
    by_cases hw4 : w = 4
    · subst hw4
      norm_num
      rw [consumeStep_skip _ (by simp)]
      rw [dispatch_pending ⟨2, [], code.CopyData, (p.length : Int), s.copyData, s.rowMode,
          s.got, s.queue, s.sent,
          s.consumed ++ [(p.length + 4) / 16777216 % 256, (p.length + 4) / 65536 % 256,
            (p.length + 4) / 256 % 256, (p.length + 4) % 256]⟩ out
        (by show ¬((p.length : Int) = 0); omega)]
    · have hne5 : p.take (w - 4) ≠ [] := by
        intro hx
        have hxl := congrArg List.length hx
        rw [htk] at hxl
        simp at hxl
        omega
      rw [consumeStep_short { s with
          buffer := [] ++ p.take (w - 4), unread := ((p.length : Nat) : Int), pstate := 2,
          mcode := code.CopyData,
          consumed := s.consumed ++ [(p.length + 4) / 2 ^ 24 % 256,
            (p.length + 4) / 2 ^ 16 % 256, (p.length + 4) / 2 ^ 8 % 256,
            (p.length + 4) % 256] } (p.take (w - 4)) p.length rfl (by rw [htk]; omega) hne5
        (by simp) rfl]
      rw [dispatch_pending { s with
          buffer := [], unread := ((p.length - (p.take (w - 4)).length : Nat) : Int),
          pstate := 2, mcode := code.CopyData,
          copyData := s.copyData ++ p.take (w - 4),
          consumed := (s.consumed ++ [(p.length + 4) / 2 ^ 24 % 256,
            (p.length + 4) / 2 ^ 16 % 256, (p.length + 4) / 2 ^ 8 % 256,
            (p.length + 4) % 256]) ++ p.take (w - 4) } out
        (by show ¬(((p.length - (p.take (w - 4)).length : Nat) : Int) = 0); rw [htk]; omega)]
      congr 1
      simp [hbe, htk, List.append_assoc]
      omega
  rw [parseLoop_step _ _ _ _ _ hne hit, parseLoop_nil _ _ _ rfl]

theorem run_boundary (B : St) (ps : List (List Byte)) (c2 rem' : List Byte) (f : Nat)
    (hrow : B.rowMode = false) (hp : B.pstate = 0) (hu : B.unread = 0)
    (hplen : framesLenOK ps) (hsplit : c2 ++ rem' = framesBytes ps)
    (hbuf : B.buffer = c2) (hf : c2.length + 1 ≤ f) :
    ∃ st1 out1 rp', (parseLoop f B []).map finish = some ⟨st1, out1, false, none⟩ ∧
      Rep st1 rem' rp' ∧ out1.flatten ++ rp' = B.copyData ++ ps.flatten := by
  rcases framesBytes_split ps c2 rem' hsplit with
    ⟨qs, qs', hqq, hceq, hremeq'⟩ | ⟨qs, r, m, qs', hqq, hm1, hm2, hceq, hremeq'⟩
  · have hlenqs : framesLenOK qs := fun x hx => hplen x (by
      rw [hqq]; exact List.mem_append_left _ hx)
    have hlenqs' : framesLenOK qs' := fun x hx => hplen x (by
      rw [hqq]; exact List.mem_append_right _ hx)
    have hflen := framesBytes_length qs
    obtain ⟨st1, heq, hrep1⟩ := run_finish_frames B qs qs' f hrow hp hu hlenqs hlenqs'
      (by rw [hbuf, hceq]) (by rw [hceq] at hf; omega)
    refine ⟨st1, _, qs'.flatten, heq, by rw [hremeq']; exact hrep1, ?_⟩
    by_cases hfl : B.copyData ++ qs.flatten = []
    · simp only [hfl, List.flatten_nil, List.nil_append, hqq, List.flatten_append]
      simp at hfl
      have hq : qs.flatten = [] := List.flatten_eq_nil_iff.mpr hfl.2
      simp [hfl.1, hq]
    · simp [hfl, hqq, List.flatten_append, List.append_assoc]
  · have hlenqs : framesLenOK qs := fun x hx => hplen x (by
      rw [hqq]; exact List.mem_append_left _ hx)
    have hlenrq : framesLenOK (r :: qs') := fun x hx => hplen x (by
      rw [hqq]; exact List.mem_append_right _ hx)
    have hflen := framesBytes_length qs
    obtain ⟨st1, heq, hrep1⟩ := run_finish_partial B qs r m qs' f hrow hp hu hlenqs hlenrq
      hm1 hm2 (by rw [hbuf, hceq])
      (by have := congrArg List.length hceq; simp at this; omega)
    refine ⟨st1, _, r.drop (m - 5) ++ qs'.flatten, heq, by rw [hremeq']; exact hrep1, ?_⟩
    have hrtd : r.take (m - 5) ++ r.drop (m - 5) = r := List.take_append_drop _ _
    by_cases hfl : B.copyData ++ qs.flatten ++ r.take (m - 5) = []
    · simp only [hfl, List.flatten_nil, List.nil_append, hqq, List.flatten_append]
      simp at hfl
      have hq : qs.flatten = [] := List.flatten_eq_nil_iff.mpr hfl.2.1
      have htk0 : r.take (m - 5) = [] := by
        rcases hfl.2.2 with h | h
        · rw [h]
          rfl
        · rw [h]
          simp
      have hr : r.drop (m - 5) = r := by
        conv_rhs => rw [← hrtd]
        rw [htk0, List.nil_append]
      simp [hfl.1, hq, hr]
    · simp only [hfl, if_false, List.flatten_cons, List.flatten_nil, List.append_nil,
        hqq, List.flatten_append]
      rw [List.append_assoc, List.append_assoc, ← List.append_assoc (r.take (m - 5)), hrtd]

theorem parse_boundary (st : St) (ps : List (List Byte)) (c rem' : List Byte)
    (hrow : st.rowMode = false) (hcd : st.copyData = []) (hp : st.pstate = 0)
    (hbuf : st.buffer = []) (hu : st.unread = 0)
    (hplen : framesLenOK ps) (hsplit : c ++ rem' = framesBytes ps) :
    ∃ st1 out1 rp', parse st c = some ⟨st1, out1, false, none⟩ ∧ Rep st1 rem' rp' ∧
      out1.flatten ++ rp' = ps.flatten := by
  rw [parse_eq_map]
  obtain ⟨st1, out1, rp', heq, hrep1, hacc⟩ := run_boundary
    { st with buffer := st.buffer ++ c } ps c rem'
    (st.buffer.length + c.length + 1) hrow hp hu hplen hsplit
    (by show st.buffer ++ c = c; rw [hbuf, List.nil_append]) (by omega)
  refine ⟨st1, out1, rp', heq, hrep1, ?_⟩
  rw [hacc]
  show st.copyData ++ ps.flatten = ps.flatten
  rw [hcd, List.nil_append]

theorem drop_frame_len (p : List Byte) (j : Nat) (hj1 : 1 ≤ j) (hj4 : j ≤ 4) :
    (copyDataFrame p).drop j = (be32 (p.length + 4)).drop (j - 1) ++ p := by
  rw [copyDataFrame]
  nth_rewrite 1 [show j = (j - 1) + 1 from by omega]
  rw [List.drop_succ_cons, List.drop_append_eq_append_drop,
      show j - 1 - (be32 (p.length + 4)).length = 0 from by simp [be32]; omega,
      List.drop_zero]

theorem drop_frame_msg (p : List Byte) (j : Nat) (hj5 : 5 ≤ j) :
    (copyDataFrame p).drop j = p.drop (j - 5) := by
  rw [copyDataFrame]
  nth_rewrite 1 [show j = (j - 1) + 1 from by omega]
  rw [List.drop_succ_cons, List.drop_append_eq_append_drop,
      List.drop_of_length_le (by simp [be32]; omega),
      show j - 1 - (be32 (p.length + 4)).length = j - 5 from by simp [be32]; omega,
      List.nil_append]

theorem parse_mid_complete (st : St) (p : List Byte) (j : Nat) (ps : List (List Byte))
    (c c2 rem' : List Byte)
    (hrow : st.rowMode = false) (hcd : st.copyData = [])
    (hj1 : 1 ≤ j) (hj2 : j < 5 + p.length) (hplen0 : p.length + 4 < 2 ^ 32)
    (hplen : framesLenOK ps)
    (hstate : (j ≤ 4 ∧ st.pstate = 1 ∧ st.buffer = (be32 (p.length + 4)).take (j - 1) ∧
        st.mcode = code.CopyData ∧ st.unread = 0) ∨
      (5 ≤ j ∧ st.pstate = 2 ∧ st.buffer = [] ∧ st.mcode = code.CopyData ∧
        st.unread = ((5 + p.length - j : Nat) : Int)))
    (hc : c = (copyDataFrame p).drop j ++ c2)
    (hfb : c2 ++ rem' = framesBytes ps) :
    ∃ st1 out1 rp', parse st c = some ⟨st1, out1, false, none⟩ ∧ Rep st1 rem' rp' ∧
      out1.flatten ++ rp' = p.drop (j - 5) ++ ps.flatten := by
  rw [parse_eq_map]
  have hRlen : ((copyDataFrame p).drop j).length = 5 + p.length - j := by
    simp [copyDataFrame, be32]
    omega
  have hclen : c.length = (5 + p.length - j) + c2.length := by
    rw [hc, List.length_append, hRlen]
  rcases hstate with ⟨hj4, hp1, hbuf, hmc, hu⟩ | ⟨hj5, hp2, hbuf, hmc, hu⟩
  · have hX : st.buffer ++ c = be32 (p.length + 4) ++ (p ++ c2) := by
      rw [hbuf, hc, drop_frame_len p j hj1 hj4, ← List.append_assoc, ← List.append_assoc,
          List.take_append_drop, List.append_assoc]
    have hne : st.buffer ++ c ≠ [] := by
      rw [hX]
      simp [be32]
    have hit := parseIter_len { st with buffer := st.buffer ++ c } p c2 [] hplen0 hp1 hmc hrow
      (by show st.buffer ++ c = _; exact hX)
    rw [show st.buffer.length + c.length + 1 = (st.buffer.length + c.length) + 1 from rfl,
        parseLoop_step _ _ _ _ _ hne hit]
    obtain ⟨st1, out1, rp', heq, hrep1, hacc⟩ := run_boundary
      { st with
        pstate := 0, buffer := c2, unread := 0,
        copyData := st.copyData ++ p,
        consumed := st.consumed ++ be32 (p.length + 4) ++ p } ps c2 rem'
      (st.buffer.length + c.length) hrow rfl rfl hplen hfb rfl (by omega)
    refine ⟨st1, out1, rp', heq, hrep1, ?_⟩
    rw [hacc]
    show (st.copyData ++ p) ++ ps.flatten = p.drop (j - 5) ++ ps.flatten
    rw [hcd, List.nil_append, show j - 5 = 0 from by omega, List.drop_zero]
  · have hdlen : (p.drop (j - 5)).length = 5 + p.length - j := by
      simp [List.length_drop]
      omega
    have hX : st.buffer ++ c = p.drop (j - 5) ++ c2 := by
      rw [hbuf, hc, drop_frame_msg p j hj5, List.nil_append]
    have ht : p.drop (j - 5) ≠ [] := by
      intro hx
      have := congrArg List.length hx
      rw [hdlen] at this
      simp at this
      omega
    have hne : st.buffer ++ c ≠ [] := by
      rw [hX]
      simp [ht]
    have hu' : ({ st with buffer := st.buffer ++ c } : St).unread
        = ((p.drop (j - 5)).length : Int) := by
      show st.unread = _
      rw [hu, hdlen]
    have hit := parseIter_msg { st with buffer := st.buffer ++ c } (p.drop (j - 5)) c2 []
      hp2 hmc hrow ht hu' (by show st.buffer ++ c = _; exact hX)
    rw [show st.buffer.length + c.length + 1 = (st.buffer.length + c.length) + 1 from rfl,
        parseLoop_step _ _ _ _ _ hne hit]
    obtain ⟨st1, out1, rp', heq, hrep1, hacc⟩ := run_boundary
      { st with
        pstate := 0, buffer := c2, unread := 0,
        copyData := st.copyData ++ p.drop (j - 5),
        consumed := st.consumed ++ p.drop (j - 5) } ps c2 rem'
      (st.buffer.length + c.length) hrow rfl rfl hplen hfb rfl (by omega)
    refine ⟨st1, out1, rp', heq, hrep1, ?_⟩
    rw [hacc]
    show (st.copyData ++ p.drop (j - 5)) ++ ps.flatten = p.drop (j - 5) ++ ps.flatten
    rw [hcd, List.nil_append]

theorem take_plus (l : List Byte) (m n : Nat) :
    l.take (m + n) = l.take m ++ (l.drop m).take n := by
  induction m generalizing l with
  | zero => simp
  | succ m ih =>
    cases l with
    | nil => simp
    | cons a l => simp [Nat.succ_add, List.take_succ_cons, List.drop_succ_cons, ih]

theorem parse_mid_partial (st : St) (p : List Byte) (j : Nat) (ps : List (List Byte))
    (c a : List Byte)
    (hrow : st.rowMode = false) (hcd : st.copyData = [])
    (hj1 : 1 ≤ j) (hj2 : j < 5 + p.length) (hplen0 : p.length + 4 < 2 ^ 32)
    (hplen : framesLenOK (p :: ps))
    (hstate : (j ≤ 4 ∧ st.pstate = 1 ∧ st.buffer = (be32 (p.length + 4)).take (j - 1) ∧
        st.mcode = code.CopyData ∧ st.unread = 0) ∨
      (5 ≤ j ∧ st.pstate = 2 ∧ st.buffer = [] ∧ st.mcode = code.CopyData ∧
        st.unread = ((5 + p.length - j : Nat) : Int)))
    (hRa : (copyDataFrame p).drop j = c ++ a) (ha : a ≠ []) :
    ∃ st1 out1 rp', parse st c = some ⟨st1, out1, false, none⟩ ∧
      Rep st1 (a ++ framesBytes ps) rp' ∧
      out1.flatten ++ rp' = p.drop (j - 5) ++ ps.flatten := by
  have hRlen : ((copyDataFrame p).drop j).length = 5 + p.length - j := by
    simp [copyDataFrame, be32]
    omega
  have hka : c.length + a.length = 5 + p.length - j := by
    have := congrArg List.length hRa
    rw [hRlen] at this
    simp at this
    omega
  have hk : j + c.length < 5 + p.length := by
    have := List.length_pos.mpr ha
    omega
  have hceq : c = ((copyDataFrame p).drop j).take c.length := by
    rw [hRa, List.take_left]
  have hadrop : a = (copyDataFrame p).drop (j + c.length) := by
    have h2 : a = ((copyDataFrame p).drop j).drop c.length := by
      rw [hRa, List.drop_left]
    rw [h2, List.drop_drop]
  have hbe4 : (be32 (p.length + 4)).length = 4 := by simp [be32]
  rw [parse_eq_map]
  rcases hstate with ⟨hj4, hp1, hbuf, hmc, hu⟩ | ⟨hj5, hp2, hbuf, hmc, hu⟩
  · by_cases hjk : j + c.length ≤ 4
    · -- chunk still inside the length field: the pass breaks with no progress
      have hblen : (st.buffer ++ c).length < 4 := by
        rw [hbuf]
        simp [List.length_take, hbe4]
        omega
      rw [parseLoop_len_brk { st with buffer := st.buffer ++ c }
          (st.buffer.length + c.length + 1) [] hp1 hblen (by omega)]
      rw [Option.map_some', finish_normal_raw _ _ (by simp [hrow])]
      have hcc : c = ((be32 (p.length + 4)).drop (j - 1)).take c.length := by
        conv_lhs => rw [hceq]
        rw [drop_frame_len p j hj1 hj4, List.take_append_eq_append_take,
            show c.length - ((be32 (p.length + 4)).drop (j - 1)).length = 0 from by
              simp [hbe4]
              omega,
            List.take_zero, List.append_nil]
      have hbuf2 : st.buffer ++ c = (be32 (p.length + 4)).take (j + c.length - 1) := by
        rw [show j + c.length - 1 = (j - 1) + c.length from by omega, take_plus, hbuf]
        congr 1
      refine ⟨_, _, p.drop (j + c.length - 5) ++ ps.flatten, rfl, ?_, ?_⟩
      · refine ⟨by simp [hrow], by simp, Or.inr ⟨p, j + c.length, ps, by omega, hk, hplen,
          by rw [hadrop], rfl, Or.inl ⟨hjk, by simp [hp1], ?_, by simp [hmc], by simp [hu]⟩⟩⟩
        show st.buffer ++ c = _
        exact hbuf2
      · simp [hcd, show j - 5 = 0 from by omega, show j + c.length - 5 = 0 from by omega]
    · -- the length field completes inside the chunk
      push_neg at hjk
      have hXdrop : (copyDataFrame p).drop j
          = (be32 (p.length + 4) ++ p).drop (j - 1) := by
        rw [drop_frame_len p j hj1 hj4, List.drop_append_eq_append_drop,
            show j - 1 - (be32 (p.length + 4)).length = 0 from by omega, List.drop_zero]
      have hccX : c = ((be32 (p.length + 4) ++ p).drop (j - 1)).take c.length := by
        conv_lhs => rw [hceq]
        rw [hXdrop]
      have hbuf2 : st.buffer ++ c
          = (be32 (p.length + 4) ++ p).take (j + c.length - 1) := by
        rw [show j + c.length - 1 = (j - 1) + c.length from by omega, take_plus, hbuf]
        congr 1
        rw [List.take_append_eq_append_take,
            show j - 1 - (be32 (p.length + 4)).length = 0 from by omega,
            List.take_zero, List.append_nil]
      rw [parseLoop_len_tail { st with buffer := st.buffer ++ c } p (j + c.length - 1)
          (st.buffer.length + c.length + 1) [] hplen0 hp1 hmc (by omega) (by omega)
          (by show st.buffer ++ c = _; exact hbuf2) (by omega)]
      rw [Option.map_some', finish_normal_raw _ _ (by simp [hrow])]
      refine ⟨_, _, p.drop (j + c.length - 5) ++ ps.flatten, rfl, ?_, ?_⟩
      · refine ⟨by simp [hrow], by simp, Or.inr ⟨p, j + c.length, ps, by omega, hk, hplen,
          by rw [hadrop], rfl, Or.inr ⟨by omega, by simp, by simp, by simp [hmc], ?_⟩⟩⟩
        show ((4 + p.length - (j + c.length - 1) : Nat) : Int) = _
        congr 1
        omega
      · have hw4 : j + c.length - 1 - 4 = j + c.length - 5 := by omega
        by_cases hpe : p.take (j + c.length - 5) = [] <;>
          simp [hcd, hw4, hpe, show j - 5 = 0 from by omega]
        · rw [show p.drop (j + c.length - 5) = p.take (j + c.length - 5) ++ p.drop (j + c.length - 5) from by rw [hpe]; simp,
              List.take_append_drop]
        · rw [← List.append_assoc, List.take_append_drop]
  · -- suspended inside the payload: the chunk is pure payload
    have hRmsg : (copyDataFrame p).drop j = p.drop (j - 5) := drop_frame_msg p j hj5
    have hdlen : (p.drop (j - 5)).length = 5 + p.length - j := by
      simp [List.length_drop]
      omega
    have hlt : (st.buffer ++ c).length < 5 + p.length - j := by
      rw [hbuf, List.nil_append]
      omega
    have hu' : ({ st with buffer := st.buffer ++ c } : St).unread
        = ((5 + p.length - j : Nat) : Int) := hu
    rw [parseLoop_msg_tail { st with buffer := st.buffer ++ c } (5 + p.length - j)
        (st.buffer.length + c.length + 1) [] hp2 hmc hu' hlt (by omega)]
    rw [Option.map_some', finish_normal_raw _ _ (by simp [hrow])]
    refine ⟨_, _, p.drop (j + c.length - 5) ++ ps.flatten, rfl, ?_, ?_⟩
    · refine ⟨by simp [hrow], by simp, Or.inr ⟨p, j + c.length, ps, by omega, hk, hplen,
        by rw [hadrop], rfl, Or.inr ⟨by omega, by simp [hp2], by simp, by simp [hmc], ?_⟩⟩⟩
      show ((5 + p.length - j - (st.buffer ++ c).length : Nat) : Int) = _
      rw [hbuf, List.nil_append]
      congr 1
      omega
    · have hcne : st.copyData ++ (st.buffer ++ c) = c := by
        rw [hcd, hbuf]
        simp
      have hcR := hceq
      rw [hRmsg] at hcR
      have haR : p.drop (j + c.length - 5) = (p.drop (j - 5)).drop c.length := by
        rw [List.drop_drop]
        congr 1
        omega
      rw [hcne]
      by_cases hpe : c = []
      · simp [hpe, haR]
      · rw [if_neg hpe]
        simp only [List.nil_append, List.flatten_cons, List.flatten_nil, List.append_nil]
        have hjoin : c ++ (p.drop (j - 5)).drop c.length = p.drop (j - 5) := by
          conv_rhs => rw [← List.take_append_drop c.length (p.drop (j - 5)), ← hcR]
        rw [haR, ← List.append_assoc, hjoin]

theorem parse_rep_step (st : St) (rem rp c rem' : List Byte) (hrep : Rep st rem rp)
    (hsplit : rem = c ++ rem') :
    ∃ st1 out1 rp', parse st c = some ⟨st1, out1, false, none⟩ ∧ Rep st1 rem' rp' ∧
      out1.flatten ++ rp' = rp := by
  obtain ⟨hrow, hcd, hcase⟩ := hrep
  rcases hcase with ⟨hp, hbuf, hu, ps, hplen, hremeq, hrpeq⟩ |
    ⟨p, j, ps, hj1, hj2, hplen, hremeq, hrpeq, hstate⟩
  · have hps : c ++ rem' = framesBytes ps := by rw [← hsplit, hremeq]
    obtain ⟨st1, out1, rp', heq, hrep1, hacc⟩ :=
      parse_boundary st ps c rem' hrow hcd hp hbuf hu hplen hps
    exact ⟨st1, out1, rp', heq, hrep1, by rw [hacc, hrpeq]⟩
  · have hplen0 : p.length + 4 < 2 ^ 32 := hplen p (by simp)
    have hplen2 : framesLenOK ps := fun x hx => hplen x (by simp [hx])
    have hsp : c ++ rem' = (copyDataFrame p).drop j ++ framesBytes ps := by
      rw [← hsplit, hremeq]
    rcases List.append_eq_append_iff.mp hsp with ⟨a, hRa, hrema⟩ | ⟨c2, hc2, hfb⟩
    · by_cases ha : a = []
      · subst ha
        rw [List.append_nil] at hRa
        obtain ⟨st1, out1, rp', heq, hrep1, hacc⟩ :=
          parse_mid_complete st p j ps c [] rem' hrow hcd hj1 hj2 hplen0 hplen2 hstate
            (by rw [hRa, List.append_nil])
            (by rw [List.nil_append, hrema, List.nil_append])
        exact ⟨st1, out1, rp', heq, hrep1, by rw [hacc, hrpeq]⟩
      · obtain ⟨st1, out1, rp', heq, hrep1, hacc⟩ :=
          parse_mid_partial st p j ps c a hrow hcd hj1 hj2 hplen0 hplen hstate hRa ha
        exact ⟨st1, out1, rp', heq, by rw [hrema]; exact hrep1, by rw [hacc, hrpeq]⟩
    · obtain ⟨st1, out1, rp', heq, hrep1, hacc⟩ :=
        parse_mid_complete st p j ps c c2 rem' hrow hcd hj1 hj2 hplen0 hplen2 hstate hc2
          hfb.symm
      exact ⟨st1, out1, rp', heq, hrep1, by rw [hacc, hrpeq]⟩

theorem rep_nil_rp (st : St) (rp : List Byte) (h : Rep st [] rp) : rp = [] := by
  obtain ⟨-, -, hcase⟩ := h
  rcases hcase with ⟨-, -, -, ps, -, hremeq, hrpeq⟩ |
    ⟨p, j, ps, hj1, hj2, -, hremeq, -, -⟩
  · rcases ps with _ | ⟨q, qs⟩
    · simpa using hrpeq
    · exact absurd hremeq.symm (by simp [framesBytes, copyDataFrame])
  · exfalso
    have hlen := congrArg List.length hremeq
    simp [copyDataFrame, be32] at hlen
    omega

theorem feed_rep : ∀ (cs : List (List Byte)) (st : St) (rp : List Byte),
    Rep st cs.flatten rp →
    ∃ st1 outs, feed st cs = some (st1, outs, false, none, cs.flatten) ∧
      outs.flatten = rp := by
  intro cs
  induction cs with
  | nil =>
    intro st rp hrep
    have := rep_nil_rp st rp (by simpa using hrep)
    exact ⟨st, [], rfl, by simp [this]⟩
  | cons c cs ih =>
    intro st rp hrep
    obtain ⟨st1, out1, rp', heq, hrep1, hacc⟩ :=
      parse_rep_step st ((c :: cs).flatten) rp c cs.flatten hrep (by simp)
    obtain ⟨st2, outs, heq2, hfl⟩ := ih st1 rp' hrep1
    refine ⟨st2, out1 ++ outs, ?_, ?_⟩
    · rw [feed, heq]
      simp only [heq2]
      rw [List.flatten_cons]
    · rw [List.flatten_append, hfl, hacc]

end CopyBoth

/-- The `_transform` loop of copy-to.js stops decoding the moment the code
byte at the current offset is ErrorResponse (or CopyDone): detach, end of
stream, no error emitted, nothing further decoded. -/
theorem transform_error_stop (rc : Nat) (rest2 : List Byte) (h4 : 4 ≤ rest2.length) :
    CopyTo.transform ⟨true, rc, none⟩ (code.ErrorResponse :: rest2)
      = ⟨⟨true, rc, none⟩, [], [], true, true⟩ := by
  have h1 : CopyTo.loop (code.ErrorResponse :: rest2) 0 true rc false [] []
      = ⟨true, rc, false, [], [], 0, true⟩ := by
    rw [CopyTo.loop]
    rw [dif_pos (by simp; omega)]
    rw [if_pos (by norm_num [List.getD, code.ErrorResponse, code.CopyDone])]
  simp only [CopyTo.transform]
  norm_num
  rw [h1]
  simp

/-! ## Claim theorems: evaluation-based claims -/

/-- C4 (code bug evaluation): in copy-to.js, a `ParameterStatus` frame that
follows a `CopyData` frame in the same delivered chunk has its payload
forwarded to the consumer (and counted in `rowCount`), because `needPush`
is never reset; copy-both.js discards it.  The chunk below is a CopyData
frame with payload `[97, 98]` followed by a ParameterStatus frame with
payload `[88, 89]`: copy-to forwards `[97, 98, 88, 89]` and counts 2 rows,
copy-both forwards only `[97, 98]`. -/
theorem C4_informational_payload_forwarded :
    CopyTo.transform CopyTo.initSt [100, 0, 0, 0, 6, 97, 98, 83, 0, 0, 0, 6, 88, 89]
      = { st := ⟨false, 2, none⟩, out := [[97, 98, 88, 89]], errs := [], eos := false,
          detached := false }
    ∧ (CopyBoth.parse (CopyBoth.init false) [100, 0, 0, 0, 6, 97, 98, 83, 0, 0, 0, 6, 88, 89]).map
        (fun r => (r.out, r.eos, r.replay)) = some ([[97, 98]], false, none) := by
  constructor
  · simp +decide [CopyTo.transform, CopyTo.initSt]
    rw [CopyTo.loop]
    simp +decide [code.ErrorResponse, code.CopyDone, code.CopyData, code.CopyOutResponse,
      code.ParameterStatus, code.NoticeResponse, code.NotificationResponse, rd32]
    rw [CopyTo.loop]
    simp +decide [code.ErrorResponse, code.CopyDone, code.CopyData, code.CopyOutResponse,
      code.ParameterStatus, code.NoticeResponse, code.NotificationResponse, rd32]
    rw [CopyTo.loop]
    simp +decide [code.ErrorResponse, code.CopyDone, code.CopyData, code.CopyOutResponse,
      code.ParameterStatus, code.NoticeResponse, code.NotificationResponse, rd32]
  · have hL : CopyBoth.parseLoop 15
        ⟨0, [100, 0, 0, 0, 6, 97, 98, 83, 0, 0, 0, 6, 88, 89], 0, 0, [], false, false, [], [], []⟩ []
        = some (.normal ⟨0, [], 83, 0, [97, 98], false, false, [], [],
            [100, 0, 0, 0, 6, 97, 98, 83, 0, 0, 0, 6, 88, 89]⟩ []) := by
      rw [show (15 : Nat) = 14 + 1 from rfl,
        CopyBoth.parseLoop_step 14 _ _
          ⟨0, [83, 0, 0, 0, 6, 88, 89], 100, 0, [97, 98], false, false, [], [],
            [100, 0, 0, 0, 6, 97, 98]⟩ [] (by decide) (by decide)]
      rw [show (14 : Nat) = 13 + 1 from rfl,
        CopyBoth.parseLoop_step 13 _ _
          ⟨0, [], 83, 0, [97, 98], false, false, [], [],
            [100, 0, 0, 0, 6, 97, 98, 83, 0, 0, 0, 6, 88, 89]⟩ [] (by decide) (by decide)]
      exact CopyBoth.parseLoop_nil _ _ _ rfl
    rw [CopyBoth.parse_eq_map]
    norm_num [CopyBoth.init]
    rw [hL]
    decide

/-- C5 counterexample: copy-both's `_parse`, on a frame whose code (here
90, ASCII 'Z') is none of the recognized ones, does not raise any error:
it treats the frame exactly like `CopyDone` — a successful end of
transfer, with detach and a clean end-of-stream signal. -/
theorem C5_counterexample :
    (CopyBoth.parse (CopyBoth.init false) [90, 0, 0, 0, 4]).map
      (fun r => (r.out, r.eos, r.replay)) = some ([], true, some []) := by decide

/-- C5 amended: for every unrecognized code, copy-to's `_transform` emits
the protocol-violation error, while copy-both's `_parse` silently treats
the frame as a successful end of transfer (detach, end of stream, no
error). -/
theorem C5_amended (mc : Byte)
    (hct : mc ∉ [code.CopyOutResponse, code.CopyData, code.ParameterStatus,
      code.NoticeResponse, code.NotificationResponse, code.ErrorResponse, code.CopyDone])
    (hcb : mc ∉ [code.CopyBothResponse, code.CopyData, code.ParameterStatus,
      code.NoticeResponse, code.NotificationResponse, code.ErrorResponse, code.CopyDone]) :
    (CopyTo.transform CopyTo.initSt [mc, 0, 0, 0, 4]).errs = [CopyTo.Err.unexpectedMessage mc]
    ∧ (CopyBoth.parse (CopyBoth.init false) [mc, 0, 0, 0, 4]).map
        (fun r => (r.out, r.eos, r.replay)) = some ([], true, some []) := by
  simp +decide [code.ErrorResponse, code.CopyDone, code.CopyData, code.CopyOutResponse,
    code.ParameterStatus, code.NoticeResponse, code.NotificationResponse,
    code.CopyBothResponse] at hct hcb
  obtain ⟨h72, h100, h83, h78, h65, h69, h99⟩ := hct
  obtain ⟨h87, -, -, -, -, -, -⟩ := hcb
  constructor
  · simp +decide [CopyTo.transform, CopyTo.initSt]
    rw [CopyTo.loop]
    simp +decide [code.ErrorResponse, code.CopyDone, code.CopyData, code.CopyOutResponse,
      code.ParameterStatus, code.NoticeResponse, code.NotificationResponse, rd32,
      h72, h100, h83, h78, h65, h69, h99]
    rw [CopyTo.loop]
    simp +decide [code.ErrorResponse, code.CopyDone, code.CopyData, code.CopyOutResponse,
      code.ParameterStatus, code.NoticeResponse, code.NotificationResponse, rd32]
  · have h1 : CopyBoth.parseIter ⟨0, [mc, 0, 0, 0, 4], 0, 0, [], false, false, [], [], []⟩ []
        = .stop ⟨0, [], mc, 0, [], false, false, [], [], [mc, 0, 0, 0, 4]⟩ [] := by
      simp +decide [CopyBoth.parseIter, CopyBoth.stage2, CopyBoth.stage3,
        CopyBoth.consumeStep, CopyBoth.dispatch, rd32,
        code.ErrorResponse, code.CopyDone, code.CopyData, code.CopyBothResponse,
        code.ParameterStatus, code.NoticeResponse, code.NotificationResponse,
        h87, h100, h83, h78, h65, h69]
    have hL : CopyBoth.parseLoop 6 ⟨0, [mc, 0, 0, 0, 4], 0, 0, [], false, false, [], [], []⟩ []
        = some (.finished ⟨0, [], mc, 0, [], false, false, [], [], [mc, 0, 0, 0, 4]⟩ []) := by
      rw [show (6 : Nat) = 5 + 1 from rfl, CopyBoth.parseLoop_stop1 5 _ _ _ _ (by simp) h1]
    rw [CopyBoth.parse_eq_map]
    norm_num [CopyBoth.init]
    rw [hL]
    simp [CopyBoth.finish, CopyBoth.flushCopyData, CopyBoth.detach]

/-- C5 witness: the hypotheses of `C5_amended` hold at code 90. -/
theorem C5_amended_witness :
    (CopyTo.transform CopyTo.initSt [90, 0, 0, 0, 4]).errs = [CopyTo.Err.unexpectedMessage 90]
    ∧ (CopyBoth.parse (CopyBoth.init false) [90, 0, 0, 0, 4]).map
        (fun r => (r.out, r.eos, r.replay)) = some ([], true, some []) :=
  C5_amended 90 (by decide) (by decide)

/-- Concrete run used by the C6 theorems: two complete CopyBothResponse
frames delivered at once to copy-both's decoder. -/
theorem eval_doubleStart :
    CopyBoth.parse (CopyBoth.init false) [87, 0, 0, 0, 4, 87, 0, 0, 0, 4]
      = some ⟨⟨0, [], 87, 0, [], false, true, [], [], [87, 0, 0, 0, 4, 87, 0, 0, 0, 4]⟩,
          [], false, none⟩ := by
  have hL : CopyBoth.parseLoop 11
      ⟨0, [87, 0, 0, 0, 4, 87, 0, 0, 0, 4], 0, 0, [], false, false, [], [], []⟩ []
      = some (.normal ⟨0, [], 87, 0, [], false, true, [], [],
          [87, 0, 0, 0, 4, 87, 0, 0, 0, 4]⟩ []) := by
    rw [show (11 : Nat) = 10 + 1 from rfl,
      CopyBoth.parseLoop_step 10 _ _
        ⟨0, [87, 0, 0, 0, 4], 87, 0, [], false, true, [], [], [87, 0, 0, 0, 4]⟩ []
        (by decide) (by decide)]
    rw [show (10 : Nat) = 9 + 1 from rfl,
      CopyBoth.parseLoop_step 9 _ _
        ⟨0, [], 87, 0, [], false, true, [], [], [87, 0, 0, 0, 4, 87, 0, 0, 0, 4]⟩ []
        (by decide) (by decide)]
    exact CopyBoth.parseLoop_nil _ _ _ rfl
  rw [CopyBoth.parse_eq_map]
  norm_num [CopyBoth.init]
  rw [hL]
  decide

/-- C6 counterexample: copy-both's `_parse` accepts a second
`CopyBothResponse` frame after the transfer has started without raising
anything: the run below (two CopyBothResponse frames) completes normally
— no error, no detach, transfer simply marked started. -/
theorem C6_counterexample :
    (CopyBoth.parse (CopyBoth.init false) [87, 0, 0, 0, 4, 87, 0, 0, 0, 4]).map
      (fun r => (r.out, r.eos, r.replay, r.st.got)) = some ([], false, none, true) := by
  rw [eval_doubleStart]
  rfl

/-- C6 amended: copy-to's `_transform` accepts the first CopyOutResponse
and emits the duplicate-start error on the second, while copy-both's
`_parse` accepts a duplicate CopyBothResponse silently (it just re-runs
`_startCopyIn`). -/
theorem C6_amended :
    (CopyTo.transform CopyTo.initSt [72, 0, 0, 0, 4, 72, 0, 0, 0, 4]).errs
        = [CopyTo.Err.unexpectedCopyOut]
    ∧ (CopyTo.transform CopyTo.initSt [72, 0, 0, 0, 4, 72, 0, 0, 0, 4]).st.gotCopyOutResponse
        = true
    ∧ (CopyTo.transform CopyTo.initSt [72, 0, 0, 0, 4]).errs = []
    ∧ (CopyBoth.parse (CopyBoth.init false) [87, 0, 0, 0, 4, 87, 0, 0, 0, 4]).map
        (fun r => (r.out, r.eos, r.replay, r.st.got)) = some ([], false, none, true) := by
  have h2 : CopyTo.transform CopyTo.initSt [72, 0, 0, 0, 4, 72, 0, 0, 0, 4]
      = { st := ⟨true, 0, none⟩, out := [], errs := [CopyTo.Err.unexpectedCopyOut],
          eos := false, detached := false } := by
    simp +decide [CopyTo.transform, CopyTo.initSt]
    rw [CopyTo.loop]
    simp +decide [code.ErrorResponse, code.CopyDone, code.CopyData, code.CopyOutResponse,
      code.ParameterStatus, code.NoticeResponse, code.NotificationResponse, rd32]
    rw [CopyTo.loop]
    simp +decide [code.ErrorResponse, code.CopyDone, code.CopyData, code.CopyOutResponse,
      code.ParameterStatus, code.NoticeResponse, code.NotificationResponse, rd32]
    rw [CopyTo.loop]
    simp +decide [code.ErrorResponse, code.CopyDone, code.CopyData, code.CopyOutResponse,
      code.ParameterStatus, code.NoticeResponse, code.NotificationResponse, rd32]
  have h1 : CopyTo.transform CopyTo.initSt [72, 0, 0, 0, 4]
      = { st := ⟨true, 0, none⟩, out := [], errs := [], eos := false, detached := false } := by
    simp +decide [CopyTo.transform, CopyTo.initSt]
    rw [CopyTo.loop]
    simp +decide [code.ErrorResponse, code.CopyDone, code.CopyData, code.CopyOutResponse,
      code.ParameterStatus, code.NoticeResponse, code.NotificationResponse, rd32]
    rw [CopyTo.loop]
    simp +decide [code.ErrorResponse, code.CopyDone, code.CopyData, code.CopyOutResponse,
      code.ParameterStatus, code.NoticeResponse, code.NotificationResponse, rd32]
  refine ⟨by rw [h2], by rw [h2], by rw [h1], by rw [eval_doubleStart]; rfl⟩

/-- C2: no byte loss or duplication across detach.  For every delivered
chunk sequence whose run ends in a detach (a replay of the accumulator to
the original consumer), the bytes the decoder consumed into frames
followed by the bytes replayed at detach are, as one sequence, exactly
the bytes the transport delivered while attached. -/
theorem C2_detach_byte_accounting (rm : Bool) (cs : List (List Byte)) (st1 : CopyBoth.St)
    (outs : List (List Byte)) (eos : Bool) (rep fed : List Byte)
    (h : CopyBoth.feed (CopyBoth.init rm) cs = some (st1, outs, eos, some rep, fed)) :
    st1.consumed ++ rep = fed := by
  have hx := CopyBoth.feed_conserve cs (CopyBoth.init rm) st1 outs eos rep fed h
  simpa [CopyBoth.init] using hx

/-- C2 witness: a single CopyDone frame is consumed whole, the replay is
empty, and consumed ++ replay is the delivered byte sequence. -/
theorem C2_detach_byte_accounting_witness :
    (⟨0, [], 99, 0, [], false, false, [], [], [99, 0, 0, 0, 4]⟩ : CopyBoth.St).consumed
        ++ ([] : List Byte) = [99, 0, 0, 0, 4] :=
  C2_detach_byte_accounting false [[99, 0, 0, 0, 4]]
    ⟨0, [], 99, 0, [], false, false, [], [], [99, 0, 0, 0, 4]⟩ [] true [] [99, 0, 0, 0, 4]
    (by
      have hp : CopyBoth.parse (CopyBoth.init false) [99, 0, 0, 0, 4]
          = some ⟨⟨0, [], 99, 0, [], false, false, [], [], [99, 0, 0, 0, 4]⟩, [], true,
              some []⟩ := by decide
      simp [CopyBoth.feed, hp])

/-- C7: writable-side acknowledgment gate.  Before the decoder observes the
copy-start acknowledgment, every written chunk is queued and nothing is
written to the transport; when `_startCopyIn` runs, all queued chunks are
framed and transmitted in write order, followed (in order) by every chunk
written after the acknowledgment. -/
theorem C7_write_gate (rm : Bool) (pre post : List CopyBoth.WEv)
    (hpre : CopyBoth.WEv.ack ∉ pre) :
    (CopyBoth.runW (CopyBoth.init rm) pre).sent = []
    ∧ (CopyBoth.runW (CopyBoth.init rm) pre).queue = CopyBoth.writesOf pre
    ∧ (CopyBoth.runW (CopyBoth.init rm) (pre ++ CopyBoth.WEv.ack :: post)).sent
        = ((CopyBoth.writesOf pre ++ CopyBoth.writesOf post).map copyDataFrame).flatten := by
  have h1 : CopyBoth.runW (CopyBoth.init rm) pre
      = { CopyBoth.init rm with queue := CopyBoth.writesOf pre } := by
    rw [CopyBoth.runW_pending pre _ rfl hpre]
    simp [CopyBoth.init]
  refine ⟨by rw [h1]; rfl, by rw [h1], ?_⟩
  rw [CopyBoth.runW_append, h1]
  have h2 : CopyBoth.runW { CopyBoth.init rm with queue := CopyBoth.writesOf pre }
        (CopyBoth.WEv.ack :: post)
      = CopyBoth.runW
          (CopyBoth.startCopyIn { CopyBoth.init rm with queue := CopyBoth.writesOf pre })
          post := rfl
  rw [h2, CopyBoth.startCopyIn_eq, CopyBoth.runW_live post _ rfl rfl]
  simp [CopyBoth.init]

/-- C7 witness: two chunks written before the acknowledgment, one after. -/
theorem C7_write_gate_witness :
    (CopyBoth.runW (CopyBoth.init false)
        [CopyBoth.WEv.write [1, 2], CopyBoth.WEv.write [3]]).sent = []
    ∧ (CopyBoth.runW (CopyBoth.init false)
        [CopyBoth.WEv.write [1, 2], CopyBoth.WEv.write [3]]).queue
        = CopyBoth.writesOf [CopyBoth.WEv.write [1, 2], CopyBoth.WEv.write [3]]
    ∧ (CopyBoth.runW (CopyBoth.init false)
        ([CopyBoth.WEv.write [1, 2], CopyBoth.WEv.write [3]]
          ++ CopyBoth.WEv.ack :: [CopyBoth.WEv.write [4]])).sent
        = ((CopyBoth.writesOf [CopyBoth.WEv.write [1, 2], CopyBoth.WEv.write [3]]
            ++ CopyBoth.writesOf [CopyBoth.WEv.write [4]]).map copyDataFrame).flatten :=
  C7_write_gate false _ _ (by decide)

/-- C8: inbound round trip.  Writing a sequence of chunks, observing the
acknowledgment, and signalling end-of-input makes the Inbound Flusher
write to the transport exactly one CopyData frame per chunk — code byte
plus a 4-byte big-endian length field equal to payload length + 4, read
back by `readUInt32BE` as that value — in write order, whose concatenated
payloads are the concatenation of the written chunks, followed by exactly
one zero-payload CopyDone frame. -/
theorem C8_inbound_round_trip (rm : Bool) (ws : List (List Byte))
    (h : ∀ c ∈ ws, c.length + 4 < 2 ^ 32) :
    (CopyBoth.final (CopyBoth.runW (CopyBoth.init rm)
        (ws.map CopyBoth.WEv.write ++ [CopyBoth.WEv.ack]))).sent
        = (ws.map copyDataFrame).flatten ++ [code.CopyDone, 0, 0, 0, 4]
    ∧ (∀ c ∈ ws, (copyDataFrame c).take 5 = code.CopyData :: be32 (c.length + 4)
        ∧ (copyDataFrame c).drop 5 = c
        ∧ rd32 ((c.length + 4) / 2 ^ 24 % 256) ((c.length + 4) / 2 ^ 16 % 256)
            ((c.length + 4) / 2 ^ 8 % 256) ((c.length + 4) % 256) = c.length + 4)
    ∧ (ws.map (fun c => (copyDataFrame c).drop 5)).flatten = ws.flatten := by
  refine ⟨?_, ?_, ?_⟩
  · have h1 : CopyBoth.runW (CopyBoth.init rm) (ws.map CopyBoth.WEv.write)
        = { CopyBoth.init rm with queue := ws } := by
      rw [CopyBoth.runW_pending _ _ rfl (CopyBoth.ack_not_mem_writes ws)]
      simp [CopyBoth.init, CopyBoth.writesOf_writes]
    rw [CopyBoth.runW_append, h1]
    have h2 : CopyBoth.runW { CopyBoth.init rm with queue := ws } [CopyBoth.WEv.ack]
        = CopyBoth.startCopyIn { CopyBoth.init rm with queue := ws } := rfl
    rw [h2, CopyBoth.startCopyIn_eq]
    rw [CopyBoth.final, CopyBoth.flush_eq]
    simp [CopyBoth.init, code.CopyDone]
  · intro c hc
    exact ⟨CopyBoth.copyDataFrame_take c, CopyBoth.copyDataFrame_drop c,
      rd32_be32 _ (h c hc)⟩
  · simp [CopyBoth.copyDataFrame_drop]

/-- C8 witness: two concrete chunks round-trip. -/
theorem C8_inbound_round_trip_witness :
    (CopyBoth.final (CopyBoth.runW (CopyBoth.init false)
        ([[1, 2], [3]].map CopyBoth.WEv.write ++ [CopyBoth.WEv.ack]))).sent
        = ([[1, 2], [3]].map copyDataFrame).flatten ++ [code.CopyDone, 0, 0, 0, 4]
    ∧ (∀ c ∈ [[1, 2], [3]], (copyDataFrame c).take 5 = code.CopyData :: be32 (c.length + 4)
        ∧ (copyDataFrame c).drop 5 = c
        ∧ rd32 ((c.length + 4) / 2 ^ 24 % 256) ((c.length + 4) / 2 ^ 16 % 256)
            ((c.length + 4) / 2 ^ 8 % 256) ((c.length + 4) % 256) = c.length + 4)
    ∧ ([[1, 2], [3]].map (fun c => (copyDataFrame c).drop 5)).flatten
        = ([[1, 2], [3]] : List (List Byte)).flatten :=
  C8_inbound_round_trip false [[1, 2], [3]] (by decide)

/-- C9 counterexample: in row mode, a CopyData frame with an empty payload
produces no forwarded unit at all (`_flushCopyData` only pushes when the
accumulated length is positive), so the number of units is not the number
of CopyData frames decoded. -/
theorem C9_counterexample :
    (CopyBoth.parse (CopyBoth.init true) (copyDataFrame [])).map (fun r => (r.out, r.eos))
      = some ([], false) := by decide

/-- C9 amended: in row mode, each CopyData frame's payload is forwarded as
one discrete unit per frame, in frame order, except that a frame with an
empty payload produces no unit (`_flushCopyData` pushes only when the
accumulated size is positive): parsing any run of complete frames outputs
exactly the nonempty payloads in order, with no end of stream and no
detach. -/
theorem C9_amended (ps : List (List Byte)) (h : framesLenOK ps) :
    (CopyBoth.parse (CopyBoth.init true) (framesBytes ps)).map
        (fun r => (r.out, r.eos, r.replay))
      = some (ps.filter (fun p => p ≠ []), false, none) :=
  CopyBoth.parse_frames_row_all ps h

/-- C9 witness: payloads `[97]`, `[]`, `[98, 99]` produce exactly two
units, skipping the empty frame. -/
theorem C9_amended_witness :
    framesLenOK [[97], [], [98, 99]] ∧
    (CopyBoth.parse (CopyBoth.init true) (framesBytes [[97], [], [98, 99]])).map
        (fun r => (r.out, r.eos, r.replay))
      = some ([[97], [98, 99]], false, none) :=
  ⟨by unfold framesLenOK; decide,
    by rw [C9_amended [[97], [], [98, 99]] (by unfold framesLenOK; decide)]; rfl⟩

/-- C3: ErrorResponse interception.  copy-both: after any run of complete
CopyData frames, an ErrorResponse code byte at the frame boundary stops
all COPY decoding: the call returns without `push(null)`, the consumption
ghost shows the error byte was never consumed, and the full error frame
(code byte included) plus everything after it is replayed to the original
consumer.  copy-to: mid-transfer, an ErrorResponse code byte at the
loop's current offset ends decoding immediately (detach, end of stream)
with no error emitted and nothing further decoded. -/
theorem C3_error_interception (rm : Bool) (ps : List (List Byte)) (rest : List Byte)
    (rc : Nat) (rest2 : List Byte) (h : framesLenOK ps) (h4 : 4 ≤ rest2.length) :
    ((CopyBoth.parse (CopyBoth.init rm) (framesBytes ps ++ code.ErrorResponse :: rest)).map
        (fun r => (r.eos, r.replay, r.st.consumed))
      = some (false, some (code.ErrorResponse :: rest), framesBytes ps))
    ∧ CopyTo.transform ⟨true, rc, none⟩ (code.ErrorResponse :: rest2)
      = ⟨⟨true, rc, none⟩, [], [], true, true⟩ :=
  ⟨CopyBoth.parse_frames_then_error rm ps rest h, transform_error_stop rc rest2 h4⟩

/-- C3 witness: one complete CopyData frame, then an ErrorResponse byte
followed by arbitrary bytes. -/
theorem C3_error_interception_witness :
    framesLenOK [[97]] ∧ 4 ≤ ([0, 0, 0, 0] : List Byte).length ∧
    (((CopyBoth.parse (CopyBoth.init false)
          (framesBytes [[97]] ++ code.ErrorResponse :: [1])).map
        (fun r => (r.eos, r.replay, r.st.consumed))
      = some (false, some (code.ErrorResponse :: [1]), framesBytes [[97]]))
    ∧ CopyTo.transform ⟨true, 3, none⟩ (code.ErrorResponse :: [0, 0, 0, 0])
      = ⟨⟨true, 3, none⟩, [], [], true, true⟩) :=
  ⟨by unfold framesLenOK; decide, by decide,
    C3_error_interception false [[97]] [1] 3 [0, 0, 0, 0]
      (by unfold framesLenOK; decide) (by decide)⟩

/-- C10: decode-loop termination under the declared-length precondition.
`lensOK 0 0 chunk` is the structural scan asserting that every frame
length field the decode loop can reach in the delivered chunk declares at
least 4; under it, copy-both's `_parse` call terminates (`parse` returns
`some`; its `none` models the endless loop a shorter declared length
causes, since the loop body then consumes no bytes and never exits). -/
theorem C10_termination (rm : Bool) (chunk : List Byte)
    (hok : CopyBoth.lensOK 0 0 chunk = true) :
    (CopyBoth.parse (CopyBoth.init rm) chunk).isSome = true :=
  CopyBoth.parse_total rm chunk hok

/-- C10 witness: a single CopyDone frame with declared length 4. -/
theorem C10_termination_witness :
    CopyBoth.lensOK 0 0 [99, 0, 0, 0, 4] = true ∧
    (CopyBoth.parse (CopyBoth.init false) [99, 0, 0, 0, 4]).isSome = true := by
  have h : CopyBoth.lensOK 0 0 [99, 0, 0, 0, 4] = true := by
    unfold CopyBoth.lensOK
    norm_num [code.ErrorResponse]
    unfold CopyBoth.lensOK
    norm_num [rd32]
  exact ⟨h, C10_termination false _ h⟩

/-- C1 counterexample: copy-to's `_transform` is not chunk-boundary
independent.  The reference stream is one complete CopyOutResponse frame
with a 3-byte body.  Delivered as a single chunk, no error is emitted;
split after the 5-byte header, the second call re-runs the per-code
`switch` on the re-presented partial frame (side effects are executed
before the length check), sees `_gotCopyOutResponse` already set, and
emits the duplicate-CopyOutResponse protocol error. -/
theorem C1_counterexample :
    (CopyTo.transform CopyTo.initSt [72, 0, 0, 0, 7, 1, 2, 3]).errs = []
    ∧ (CopyTo.transform (CopyTo.transform CopyTo.initSt [72, 0, 0, 0, 7]).st [1, 2, 3]).errs
      = [CopyTo.Err.unexpectedCopyOut] := by
  have h1 : CopyTo.transform CopyTo.initSt [72, 0, 0, 0, 7]
      = ⟨⟨true, 0, some [72, 0, 0, 0, 7]⟩, [], [], false, false⟩ := by
    simp +decide [CopyTo.transform, CopyTo.initSt]
    rw [CopyTo.loop]
    simp +decide [code.ErrorResponse, code.CopyDone, code.CopyData, code.CopyOutResponse,
      code.ParameterStatus, code.NoticeResponse, code.NotificationResponse, rd32]
  constructor
  · simp +decide [CopyTo.transform, CopyTo.initSt]
    rw [CopyTo.loop]
    simp +decide [code.ErrorResponse, code.CopyDone, code.CopyData, code.CopyOutResponse,
      code.ParameterStatus, code.NoticeResponse, code.NotificationResponse, rd32]
    rw [CopyTo.loop]
    simp +decide [code.ErrorResponse, code.CopyDone, code.CopyData, code.CopyOutResponse,
      code.ParameterStatus, code.NoticeResponse, code.NotificationResponse, rd32]
  · rw [h1]
    simp +decide [CopyTo.transform]
    rw [CopyTo.loop]
    simp +decide [code.ErrorResponse, code.CopyDone, code.CopyData, code.CopyOutResponse,
      code.ParameterStatus, code.NoticeResponse, code.NotificationResponse, rd32]
    rw [CopyTo.loop]
    simp +decide [code.ErrorResponse, code.CopyDone, code.CopyData, code.CopyOutResponse,
      code.ParameterStatus, code.NoticeResponse, code.NotificationResponse, rd32]

/-- C1 amended: copy-both's `_parse` is chunk-boundary independent.  For
every way of splitting a reference stream of complete CopyData frames
into a chunk sequence, feeding the chunks one call at a time yields the
same concatenated forwarded output — the concatenated payloads — with no
detach and no end-of-stream, and partial frames persist in the
accumulator between calls.  (copy-to fails this property:
`C1_counterexample`.) -/
theorem C1_chunk_boundary_independence (ps cs : List (List Byte))
    (hlen : framesLenOK ps) (hsplit : cs.flatten = framesBytes ps) :
    ∃ st1 outs, CopyBoth.feed (CopyBoth.init false) cs
        = some (st1, outs, false, none, cs.flatten) ∧
      outs.flatten = ps.flatten :=
  CopyBoth.feed_rep cs (CopyBoth.init false) ps.flatten
    ⟨rfl, rfl, Or.inl ⟨rfl, rfl, rfl, ps, hlen, hsplit, rfl⟩⟩

/-- C1 witness: payloads `[1, 2]` and `[3]`, delivered in four chunks
whose boundaries fall inside the length field, inside the payload, and
across the two frames. -/
theorem C1_chunk_boundary_independence_witness :
    framesLenOK [[1, 2], [3]] ∧
    ([[100, 0, 0], [0, 6, 1], [2, 100, 0, 0, 0], [5, 3]] : List (List Byte)).flatten
      = framesBytes [[1, 2], [3]] ∧
    ∃ st1 outs, CopyBoth.feed (CopyBoth.init false)
          [[100, 0, 0], [0, 6, 1], [2, 100, 0, 0, 0], [5, 3]]
        = some (st1, outs, false, none,
            ([[100, 0, 0], [0, 6, 1], [2, 100, 0, 0, 0], [5, 3]] : List (List Byte)).flatten) ∧
      outs.flatten = ([[1, 2], [3]] : List (List Byte)).flatten :=
  ⟨by unfold framesLenOK; decide, by decide,
    C1_chunk_boundary_independence [[1, 2], [3]]
      [[100, 0, 0], [0, 6, 1], [2, 100, 0, 0, 0], [5, 3]]
      (by unfold framesLenOK; decide) (by decide)⟩

/-! Temporary sanity checks (removed in the final development). -/

end NodePgCopy
